import Mathlib

/-!
Verification of the agenticode agent turn engine against its specification.

The Go sources are shallowly embedded: pure functions become Lean functions,
stateful objects become explicit state passing, Go maps become functions
`String → Option _`, and external library calls (JSON parsing/marshalling,
the LLM transport, the OS file system, hook child processes, string
replacement from the Go standard library) become parameters of an `Env`
record, so that every repository-owned control path is translated literally.
-/

namespace Agenticode

/-- Go `openai.ToolCall` (only the fields the agent reads: `ID`,
`Function.Name`, `Function.Arguments`). -/
structure ToolCall where
  id : String
  name : String
  arguments : String
deriving Repr, DecidableEq

/-- Go `openai.ChatCompletionMessage` restricted to the fields the agent
reads or writes: `Role`, `Content`, `Name`, `ToolCalls`, `ToolCallID`. -/
structure ChatMessage where
  role : String
  content : String
  name : String := ""
  toolCalls : List ToolCall := []
  toolCallID : String := ""
deriving Repr, DecidableEq

/-- A dynamically typed Go value (`interface{}`) as found in parsed tool
argument maps; the agent only ever type-asserts `.(string)` and `.(bool)`. -/
inductive GoValue where
  | str (s : String)
  | boolean (b : Bool)
  | other
deriving Repr, DecidableEq

/-- Go `map[string]interface{}` of tool arguments, as an association list. -/
def ArgsMap := List (String × GoValue)
deriving Repr, DecidableEq

/-- Go map lookup `args[key]`. -/
def ArgsMap.lookup (args : ArgsMap) (key : String) : Option GoValue :=
  (List.find? (fun p => p.1 == key) args).map (fun p => p.2)

/-- The Go type assertion `args[key].(string)`: `some s` iff present and a
string. -/
def ArgsMap.getString (args : ArgsMap) (key : String) : Option String :=
  match args.lookup key with
  | some (GoValue.str s) => some s
  | _ => none

/-- Go `RiskLevel` from `internal/agent/agent.go`. -/
inductive RiskLevel where
  | low
  | medium
  | high
deriving Repr, DecidableEq

/-- Go `AssessToolCallRisk` from `internal/agent/agent.go`: the `switch` on the
tool name. -/
def AssessToolCallRisk (toolName : String) : RiskLevel :=
  if toolName == "read_file" || toolName == "read" || toolName == "list_files"
      || toolName == "grep" || toolName == "glob" || toolName == "read_many_files" then
    RiskLevel.low
  else if toolName == "write_file" || toolName == "edit" || toolName == "apply_patch" then
    RiskLevel.medium
  else if toolName == "run_shell" then
    RiskLevel.high
  else
    RiskLevel.medium

/-! ## Conversation filtering (`filterConversationForLLM`) -/

/-- The loop body of `filterConversationForLLM`: `prev` is the message at
index `i-1` of the ORIGINAL slice (not of the output), mirroring
`messages[i-1]` in the Go code. -/
def filterGo (prev : Option ChatMessage) : List ChatMessage → List ChatMessage
  | [] => []
  | m :: rest =>
    if m.role == "tool" then
      match prev with
      | some p =>
        if p.toolCalls.isEmpty then filterGo (some m) rest
        else m :: filterGo (some m) rest
      | none => filterGo (some m) rest
    else
      m :: filterGo (some m) rest

/-- Go `filterConversationForLLM` from the agent package: keeps a `tool`
message iff the immediately preceding message of the input has a non-empty
`ToolCalls` list; keeps every non-tool message. -/
def filterConversationForLLM (messages : List ChatMessage) : List ChatMessage :=
  filterGo none messages

/-- The ids carried by an assistant message's `tool_calls`. -/
def toolCallIDs (m : ChatMessage) : List String :=
  m.toolCalls.map (fun tc => tc.id)

/-- Spec-side predicate (P1, orphan safety, as the spec words it): every
`tool` message is immediately preceded by an `assistant` message whose
`tool_calls` contains its `tool_call_id`. `prev` is the previous message of
THIS list. -/
def orphanSafeGo (prev : Option ChatMessage) : List ChatMessage → Bool
  | [] => true
  | m :: rest =>
    (if m.role == "tool" then
      match prev with
      | some p => p.role == "assistant" && (toolCallIDs p).contains m.toolCallID
      | none => false
    else true) && orphanSafeGo (some m) rest

/-- Orphan safety of a whole conversation, following the spec's words. -/
def orphanSafe (messages : List ChatMessage) : Bool :=
  orphanSafeGo none messages

/-- The weaker adjacency property the code actually establishes: every
`tool` message is immediately preceded by an `assistant` message with a
non-empty `tool_calls` list (no id membership). -/
def weakOrphanSafeGo (prev : Option ChatMessage) : List ChatMessage → Bool
  | [] => true
  | m :: rest =>
    (if m.role == "tool" then
      match prev with
      | some p => p.role == "assistant" && !p.toolCalls.isEmpty
      | none => false
    else true) && weakOrphanSafeGo (some m) rest

/-- Weak orphan safety of a whole conversation. -/
def weakOrphanSafe (messages : List ChatMessage) : Bool :=
  weakOrphanSafeGo none messages

/-- Well-formedness of a single message as the agent itself constructs
them: only assistant messages carry tool calls, and tool messages carry
none. -/
def msgWF (m : ChatMessage) : Prop :=
  (m.toolCalls ≠ [] → m.role = "assistant") ∧ (m.role = "tool" → m.toolCalls = [])

/-! ## Token estimation (`internal/agent/summarizer.go`) -/

/-- Go `estimateTokens`: accumulates `len(msg.Content) + 10` per message and
divides the total by 4.  Go `len` on a string counts UTF-8 bytes, hence
`utf8ByteSize`. -/
def estimateTokens (messages : List ChatMessage) : Nat :=
  (messages.foldl (fun totalChars msg => totalChars + msg.content.utf8ByteSize + 10) 0) / 4

/-- The estimator the spec describes: characters divided by 4, plus 10 per
message. -/
def specEstimateTokens (messages : List ChatMessage) : Nat :=
  (messages.map (fun msg => msg.content.utf8ByteSize)).sum / 4 + 10 * messages.length

/-! ## Hook output aggregation (`internal/hooks/manager.go`) -/

/-- The `HookSpecificOutput` interface value (a type switch target in Go). -/
inductive HookSpecific where
  | empty
  | preToolUse (permissionDecision : String) (permissionDecisionReason : String)
  | userPromptSubmit (additionalContext : String)
  | sessionStart (additionalContext : String)
deriving Repr, DecidableEq

/-- Go `HookOutput` (fields read by the aggregation functions). -/
structure HookOutput where
  continueFlag : Bool
  stopReason : String := ""
  decision : String := ""
  reason : String := ""
  hookSpecificOutput : HookSpecific := HookSpecific.empty
deriving Repr, DecidableEq

/-- Go `Manager.ShouldBlockToolExecution`: first blocking output wins. -/
def ShouldBlockToolExecution : List HookOutput → Bool × String
  | [] => (false, "")
  | o :: rest =>
    if !o.continueFlag then (true, o.stopReason)
    else
      match o.hookSpecificOutput with
      | HookSpecific.preToolUse pd pdReason =>
        if pd == "deny" then (true, pdReason)
        else if o.decision == "deny" || o.decision == "block" then (true, o.reason)
        else ShouldBlockToolExecution rest
      | _ =>
        if o.decision == "deny" || o.decision == "block" then (true, o.reason)
        else ShouldBlockToolExecution rest

/-- Go `Manager.ShouldAutoApprove`: first approving output wins; note the Go
code never consults the blocking conditions here. -/
def ShouldAutoApprove : List HookOutput → Bool × String
  | [] => (false, "")
  | o :: rest =>
    match o.hookSpecificOutput with
    | HookSpecific.preToolUse pd pdReason =>
      if pd == "allow" then (true, pdReason)
      else if o.decision == "approve" || o.decision == "allow" then (true, o.reason)
      else ShouldAutoApprove rest
    | _ =>
      if o.decision == "approve" || o.decision == "allow" then (true, o.reason)
      else ShouldAutoApprove rest

/-- Spec-side notion of a blocking output: `continue = false`,
`permissionDecision = deny`, or `decision ∈ \x7bdeny, block\x7d`. -/
def specIsBlocking (o : HookOutput) : Bool :=
  !o.continueFlag
    || (match o.hookSpecificOutput with
        | HookSpecific.preToolUse pd _ => pd == "deny"
        | _ => false)
    || o.decision == "deny" || o.decision == "block"

/-- Spec-side notion of an explicitly approving output:
`permissionDecision = allow` or `decision ∈ \x7bapprove, allow\x7d`. -/
def specIsApproving (o : HookOutput) : Bool :=
  (match o.hookSpecificOutput with
   | HookSpecific.preToolUse pd _ => pd == "allow"
   | _ => false)
    || o.decision == "approve" || o.decision == "allow"

/-! ## The shell tool (`internal/tools/tools.go`) -/

/-- Whether `sub` occurs as a contiguous sublist of `l`
(Go `strings.Contains` on the underlying bytes/characters). -/
def charsContain (sub : List Char) : List Char → Bool
  | [] => sub.isEmpty
  | c :: rest => sub.isPrefixOf (c :: rest) || charsContain sub rest

/-- Go `strings.Contains(s, sub)`. -/
def goContains (s sub : String) : Bool :=
  charsContain sub.toList s.toList

/-- Go `strings.ToLower` (ASCII case mapping, which is all the blocklist
patterns exercise). -/
def goToLower (s : String) : String :=
  String.mk (s.toList.map Char.toLower)

/-- The blocklist literal from `RunShellTool.Execute`. -/
def dangerousCommands : List String :=
  ["rm -rf", "sudo", "chmod 777", "curl | sh", "wget | sh"]

/-- Observable outcome of `RunShellTool.Execute`: the error paths, or the
fact that `exec.Command("sh", "-c", command)` was spawned. -/
inductive ShellOutcome where
  | missingCommand
  | blocked (command : String)
  | spawned (prog : String) (procArgs : List String)
deriving Repr, DecidableEq

/-- Go `RunShellTool.Execute` up to the point where a process is (or is not)
spawned. -/
def RunShellExecute (args : ArgsMap) : ShellOutcome :=
  match args.getString "command" with
  | none => ShellOutcome.missingCommand
  | some command =>
    let lowerCommand := goToLower command
    if dangerousCommands.any (fun dangerous => goContains lowerCommand dangerous) then
      ShellOutcome.blocked command
    else
      ShellOutcome.spawned "sh" ["-c", command]

/-! ## Tool-call scheduler (`internal/agent/agent.go`) -/

/-- Go `ToolCallStatus`. -/
inductive ToolCallStatus where
  | pending
  | approved
  | rejected
  | executed
  | failed
deriving Repr, DecidableEq

/-- Go `PendingToolCall` (the `Context` field is omitted: it is never read by
the scheduler logic). `Result` is the opaque `interface\x7b\x7d` execution
result; timestamps are abstract instants. -/
structure PendingToolCall where
  id : String
  toolCall : ToolCall
  status : ToolCallStatus
  result : Option GoValue := none
  error : Option String := none
  createdAt : Nat
  approvedAt : Option Nat := none
  executedAt : Option Nat := none
deriving Repr, DecidableEq

/-- The scheduler's `pendingCalls` Go map, as a function. -/
def SchedState := String → Option PendingToolCall

/-- The empty scheduler (`NewToolCallScheduler`). -/
def emptySched : SchedState := fun _ => none

/-- One insertion of `ScheduleToolCalls`'s loop body:
`s.pendingCalls[tc.ID] = pending` with a fresh `Pending` entry. -/
def scheduleOne (now : Nat) (s : SchedState) (tc : ToolCall) : SchedState :=
  fun k =>
    if k == tc.id then
      some { id := tc.id, toolCall := tc, status := ToolCallStatus.pending, createdAt := now }
    else s k

/-- Go `ToolCallScheduler.ScheduleToolCalls` (state part; the returned
`[]*PendingToolCall` is recovered by looking the ids up). -/
def ScheduleToolCalls (now : Nat) (s : SchedState) (toolCalls : List ToolCall) : SchedState :=
  toolCalls.foldl (scheduleOne now) s

/-- Go `ToolCallScheduler.ApproveCalls`: each listed id moves
`Pending → Approved` (and records `ApprovedAt`); other statuses are left
untouched. -/
def ApproveCalls (now : Nat) (s : SchedState) (callIDs : List String) : SchedState :=
  callIDs.foldl
    (fun st id => fun k =>
      if k == id then
        match st id with
        | some c =>
          if c.status = ToolCallStatus.pending then
            some { c with status := ToolCallStatus.approved, approvedAt := some now }
          else some c
        | none => none
      else st k)
    s

/-- Go `ToolCallScheduler.RejectCalls`: each listed id moves
`Pending → Rejected`; other statuses are left untouched. -/
def RejectCalls (s : SchedState) (callIDs : List String) : SchedState :=
  callIDs.foldl
    (fun st id => fun k =>
      if k == id then
        match st id with
        | some c =>
          if c.status = ToolCallStatus.pending then
            some { c with status := ToolCallStatus.rejected }
          else some c
        | none => none
      else st k)
    s

/-- Go `ToolCallScheduler.MarkExecuted`: any tracked call — whatever its
current status — receives the result and becomes `Failed` (when an error is
present) or `Executed`. -/
def MarkExecuted (now : Nat) (s : SchedState) (callID : String)
    (result : Option GoValue) (err : Option String) : SchedState :=
  fun k =>
    if k == callID then
      match s callID with
      | some c =>
        some { c with
          executedAt := some now
          result := result
          error := err
          status := if err.isSome then ToolCallStatus.failed else ToolCallStatus.executed }
      | none => none
    else s k

/-! ## Turn and TurnHandler (`internal/agent/events.go`, `handlers.go`)

The Turn's event production and the handler's event consumption are
deterministic given the external world, which is captured by `Env` below:
the LLM transport, JSON encoding/decoding, the file system, the Go standard
library's string replacement, the diff renderer, the approver, and (for the
spec-modelled hook gate) the hook outputs. -/

/-- Go `ToolCallRequestEvent` (the `IsClientInitiated` flag is always `false`
in this code path and never read). -/
structure ToolCallRequestEventM where
  callID : String
  name : String
  args : ArgsMap
deriving Repr, DecidableEq

/-- The three `ToolCallConfirmationDetails` variants of
`internal/agent/approval_types.go`. -/
inductive ConfirmDetails where
  | file (toolName filePath fileDiff : String) (isNewFile : Bool)
      (originalContent newContent : String) (risk : RiskLevel)
  | exec (toolName command workingDir : String) (risk : RiskLevel)
  | info (toolName description : String) (params : ArgsMap) (risk : RiskLevel)
deriving Repr, DecidableEq

/-- Go `GetRisk` of the details interface. -/
def ConfirmDetails.GetRisk : ConfirmDetails → RiskLevel
  | ConfirmDetails.file _ _ _ _ _ _ r => r
  | ConfirmDetails.exec _ _ _ r => r
  | ConfirmDetails.info _ _ _ r => r

/-- A non-nil Go `ToolCallConfirmationDetails` interface value: a typed
pointer boxed in the interface.  The boxed pointer itself may be nil
(`ptr = none`) — Go's typed nil, which compares NON-equal to a nil
interface but panics when a method dereferences it. -/
structure ConfirmIface where
  ptr : Option ConfirmDetails
deriving Repr, DecidableEq

/-- The events a Turn emits (`ErrorEvent` carries both its `Error` and its
`Message` field).  A confirmation carries the details interface value. -/
inductive EventM where
  | content (text : String)
  | toolCallRequest (e : ToolCallRequestEventM)
  | toolCallConfirmation (request : ToolCallRequestEventM) (details : ConfirmIface)
  | errorEvent (errText : String) (message : String)
  | userCancelled
deriving Repr, DecidableEq

/-- Go `tools.ToolResult` (fields read by the handler). -/
structure ToolResult where
  llmContent : String
  returnDisplay : String := ""
  error : Option String := none
deriving Repr, DecidableEq

/-- The single choice of an LLM response (`LLMResponse`). -/
structure LLMReply where
  content : String
  toolCalls : List ToolCall
deriving Repr, DecidableEq

/-- Go `ApprovalRequest` as built by `handleToolCallConfirmation`. -/
structure ApprovalRequestM where
  requestID : String
  toolCalls : List PendingToolCall
  risks : List (String × RiskLevel)
  confirmationDetails : Option ConfirmDetails
deriving Repr, DecidableEq

/-- Go `ApprovalResponse`. -/
structure ApprovalResponseM where
  requestID : String
  approved : Bool := false
  approvedIDs : List String := []
  rejectedIDs : List String := []
  reason : String := ""
deriving Repr, DecidableEq

/-- The deterministic external world of one agent invocation.
`parseArgs` stands for `json.Unmarshal`, `jsonArgs` for `json.Marshal`,
`fmtArgs` for `fmt.Sprintf("%v", args)`, `statOk`/`readFile` for
`os.Stat`/`os.ReadFile`, `replaceAll`/`replaceOne` for
`strings.ReplaceAll`/`strings.Replace(·,·,·,1)`, `genDiff` for
`DiffGenerator.GenerateColoredDiff`, `cwd` for `os.Getwd`, `execute` for
`tool.Execute` (result, Go error), `requestApproval` for the
`ToolApprover`, `llm` for `llm.Client.Generate` (its `error` branch also
covers the empty-choices case), and `preHooks` for the outputs of the
`PreToolUse` hooks of one firing. -/
structure Env where
  registry : List String
  parseArgs : String → Except String ArgsMap
  jsonArgs : ArgsMap → String
  fmtArgs : ArgsMap → String
  statOk : String → Bool
  readFile : String → Option String
  replaceAll : String → String → String → String
  replaceOne : String → String → String → String
  genDiff : String → String → String → String
  cwd : String
  execute : String → ArgsMap → ToolResult × Option String
  requestApproval : ApprovalRequestM → Except String ApprovalResponseM
  llm : List ChatMessage → Except String LLMReply
  preHooks : String → ArgsMap → List HookOutput

/-- Go `Turn.createFileConfirmationDetails`: for `write_file` always returns
details (new-file when `os.Stat` fails); for `edit` returns `nil` when the
target file cannot be read. -/
def createFileConfirmationDetails (env : Env) (toolName : String) (args : ArgsMap)
    (risk : RiskLevel) : Option ConfirmDetails :=
  if toolName == "write_file" then
    let filePath := (args.getString "path").getD ""
    let newContent := (args.getString "content").getD ""
    if env.statOk filePath then
      match env.readFile filePath with
      | some currentContent =>
        some (ConfirmDetails.file toolName filePath
          (env.genDiff currentContent newContent filePath) false currentContent newContent risk)
      | none =>
        some (ConfirmDetails.file toolName filePath "" false "" newContent risk)
    else
      some (ConfirmDetails.file toolName filePath "" true "" newContent risk)
  else if toolName == "edit" then
    let filePath := (args.getString "file_path").getD ""
    match env.readFile filePath with
    | none => none
    | some currentContent =>
      let oldString := (args.getString "old_string").getD ""
      let newString := (args.getString "new_string").getD ""
      let repAll := match args.lookup "replace_all" with
        | some (GoValue.boolean b) => b
        | _ => false
      let newContent :=
        if repAll then env.replaceAll currentContent oldString newString
        else env.replaceOne currentContent oldString newString
      some (ConfirmDetails.file toolName filePath
        (env.genDiff currentContent newContent filePath) false currentContent newContent risk)
  else
    some (ConfirmDetails.file toolName "" "" false "" "" risk)

/-- Go `Turn.createExecConfirmationDetails`. -/
def createExecConfirmationDetails (env : Env) (toolName : String) (args : ArgsMap)
    (risk : RiskLevel) : ConfirmDetails :=
  let command := (args.getString "command").getD ""
  let workingDir :=
    match args.getString "working_directory" with
    | some wd => wd
    | none => env.cwd
  ConfirmDetails.exec toolName command workingDir risk

/-- Go `Turn.createConfirmationDetails`.  Its Go return type is the
INTERFACE `ToolCallConfirmationDetails`, and every return statement boxes
a typed pointer (`*ToolFileConfirmationDetails` for `write_file`/`edit`,
`*ToolExecConfirmationDetails` for `run_shell`, a fresh
`*ToolInfoConfirmationDetails` otherwise).  The outer `Option` is the
nilness of the interface itself, so the result is `some` on every branch;
for an `edit` of an unreadable file the BOXED pointer is nil
(`ptr = none`), Go's typed nil. -/
def createConfirmationDetails (env : Env) (toolName : String) (args : ArgsMap)
    (risk : RiskLevel) : Option ConfirmIface :=
  if toolName == "write_file" || toolName == "edit" then
    some { ptr := createFileConfirmationDetails env toolName args risk }
  else if toolName == "run_shell" then
    some { ptr := some (createExecConfirmationDetails env toolName args risk) }
  else
    some { ptr := (some
      (ConfirmDetails.info toolName (toolName ++ ": " ++ env.fmtArgs args) args risk)) }

/-- Go `Turn.handleToolCall`: synthesize a call id if absent, parse the
arguments (error event on failure, before the call is recorded), record the
call in `pendingCalls`, error event if the tool is missing from the
registry (after recording), otherwise emit the request and — for non-Low
risk — a confirmation when `details != nil`.  That guard compares the
INTERFACE against nil, so it always passes (`createConfirmationDetails`
boxes a typed pointer on every branch): its `none` arm is dead code, and
the confirmation for an `edit` of an unreadable file is emitted with a
typed-nil `Details`. -/
def handleToolCallM (env : Env) (pendingCalls : List ToolCallRequestEventM) (tc : ToolCall) :
    List EventM × List ToolCallRequestEventM :=
  let callID := if tc.id == "" then tc.name ++ "-" ++ toString pendingCalls.length else tc.id
  match env.parseArgs tc.arguments with
  | Except.error e =>
    ([EventM.errorEvent e ("Failed to parse tool arguments for " ++ tc.name ++ ": " ++ e)],
      pendingCalls)
  | Except.ok args =>
    let event : ToolCallRequestEventM := { callID := callID, name := tc.name, args := args }
    let pending := pendingCalls ++ [event]
    if env.registry.contains tc.name then
      let risk := AssessToolCallRisk tc.name
      if risk = RiskLevel.low then
        ([EventM.toolCallRequest event], pending)
      else
        match createConfirmationDetails env tc.name args risk with
        | some details =>
          ([EventM.toolCallRequest event, EventM.toolCallConfirmation event details], pending)
        | none => ([EventM.toolCallRequest event], pending)
    else
      ([EventM.errorEvent ("tool not found: " ++ tc.name) ("Unknown tool: " ++ tc.name)], pending)

/-- The tool-call loop of `Turn.run`, threading `pendingCalls`. -/
def turnCallsEvents (env : Env) (pendingCalls : List ToolCallRequestEventM) :
    List ToolCall → List EventM × List ToolCallRequestEventM
  | [] => ([], pendingCalls)
  | tc :: rest =>
    let r1 := handleToolCallM env pendingCalls tc
    let r2 := turnCallsEvents env r1.2 rest
    (r1.1 ++ r2.1, r2.2)

/-- Observable outcome of `Turn.run`: the emitted events, the Turn's
conversation (with the assistant message appended on LLM success), and
`pendingCalls`. -/
structure TurnResult where
  events : List EventM
  conversation : List ChatMessage
  pendingCalls : List ToolCallRequestEventM
deriving Repr, DecidableEq

/-- Go `Turn.run` with the default `NoOpDebugger`: filter the conversation,
call the LLM (failure emits one error event and leaves the conversation
unchanged), append the assistant message, emit content when non-empty, then
the per-call events. -/
def turnRun (env : Env) (conversation : List ChatMessage) : TurnResult :=
  match env.llm (filterConversationForLLM conversation) with
  | Except.error e =>
    { events := [EventM.errorEvent e ("LLM call failed: " ++ e)]
      conversation := conversation
      pendingCalls := [] }
  | Except.ok response =>
    let conversation₁ := conversation ++
      [{ role := "assistant", content := response.content, toolCalls := response.toolCalls }]
    let contentEvents := if response.content == "" then [] else [EventM.content response.content]
    let r := turnCallsEvents env [] response.toolCalls
    { events := contentEvents ++ r.1
      conversation := conversation₁
      pendingCalls := r.2 }

/-- The `TurnHandler`'s mutable state.  `invoked` is pure instrumentation:
it records, in order, each `tool.Execute` invocation the handler performs
(it changes no behaviour). -/
structure HandlerState where
  pendingApprovals : List (String × ToolCallRequestEventM)
  toolResponses : List ChatMessage
  scheduler : SchedState
  invoked : List (String × ArgsMap)

/-- The three ways a call in the handler stack finishes: a normal return,
a returned Go `error`, or a runtime panic unwinding the stack — nothing in
this repository calls `recover`, so a panic crashes the invocation. -/
inductive HandlerOutcome where
  | ok (st : HandlerState)
  | fail (e : String)
  | panicked (msg : String)

/-- The Go runtime's message for a nil-pointer dereference. -/
def nilDerefPanic : String :=
  "runtime error: invalid memory address or nil pointer dereference"

/-- Go map read `h.pendingApprovals[k]`. -/
def paLookup (pa : List (String × ToolCallRequestEventM)) (k : String) :
    Option ToolCallRequestEventM :=
  (List.find? (fun p => p.1 == k) pa).map (fun p => p.2)

/-- Go map write `h.pendingApprovals[k] = v` (overwrite). -/
def paInsert (pa : List (String × ToolCallRequestEventM)) (k : String)
    (v : ToolCallRequestEventM) : List (String × ToolCallRequestEventM) :=
  (k, v) :: pa.filter (fun p => !(p.1 == k))

/-- Go map `delete(h.pendingApprovals, k)`. -/
def paDelete (pa : List (String × ToolCallRequestEventM)) (k : String) :
    List (String × ToolCallRequestEventM) :=
  pa.filter (fun p => !(p.1 == k))

/-- The `ToolResult` seen by the handler: a Go execution error is
converted into an error `ToolResult` (`result = &tools.ToolResult{...}`
inside `executeToolCall`). -/
def execToolResult (env : Env) (event : ToolCallRequestEventM) : ToolResult :=
  match (env.execute event.name event.args).2 with
  | some e =>
    { llmContent := "Error: " ++ e, returnDisplay := "Error: " ++ e, error := some e }
  | none => (env.execute event.name event.args).1

/-- The tool-role response message `executeToolCall` appends: its content
is the result's llm-content, or `"Error: <e>"` on a tool-level error. -/
def execResponseMsg (env : Env) (event : ToolCallRequestEventM) : ChatMessage :=
  { role := "tool"
    content :=
      match (execToolResult env event).error with
      | some e => "Error: " ++ e
      | none => (execToolResult env event).llmContent
    name := event.name
    toolCallID := event.callID }

/-- Go `TurnHandler.executeToolCall`: missing tool is a returned error
(aborting the turn); otherwise the tool runs, one tool-role response with
the call's id is appended, and the scheduler entry is marked
executed/failed.  The opaque result value stored in the scheduler is
abstracted to `GoValue.other`. -/
def executeToolCallM (env : Env) (st : HandlerState) (event : ToolCallRequestEventM) :
    HandlerOutcome :=
  if env.registry.contains event.name then
    HandlerOutcome.ok { st with
      invoked := st.invoked ++ [(event.name, event.args)]
      toolResponses := st.toolResponses ++ [execResponseMsg env event]
      scheduler := MarkExecuted 0 st.scheduler event.callID (some GoValue.other)
        (env.execute event.name event.args).2 }
  else
    HandlerOutcome.fail ("tool not found: " ++ event.name)

/-- The single tool call `handleToolCallConfirmation` hands to the
scheduler. -/
def confirmationToolCall (env : Env) (request : ToolCallRequestEventM) : ToolCall :=
  { id := request.callID, name := request.name, arguments := env.jsonArgs request.args }

/-- The single-call `ApprovalRequest` that `handleToolCallConfirmation`
forwards to the approver. -/
def confirmationApprovalRequest (env : Env) (request : ToolCallRequestEventM)
    (details : ConfirmDetails) : ApprovalRequestM :=
  { requestID := request.callID
    toolCalls := [{ id := request.callID, toolCall := confirmationToolCall env request
                    status := ToolCallStatus.pending, createdAt := 0 }]
    risks := [(request.callID, details.GetRisk)]
    confirmationDetails := some details }

/-- Go `TurnHandler.handleToolCallConfirmation`: schedule the call, build
the approval request — evaluating `event.Details.GetRisk()`, which PANICS
with a nil-pointer dereference when the details interface boxes a typed
nil — then ask the approver (an approver error aborts), then execute on a
non-empty `ApprovedIDs` list (when the request is still pending) or record
a rejection message; the `pendingApprovals` entry is deleted on every
non-error exit. -/
def handleToolCallConfirmationM (env : Env) (st : HandlerState)
    (request : ToolCallRequestEventM) (details : ConfirmIface) : HandlerOutcome :=
  let tc : ToolCall := confirmationToolCall env request
  let sched₁ := ScheduleToolCalls 0 st.scheduler [tc]
  match details.ptr with
  | none => HandlerOutcome.panicked nilDerefPanic
  | some d =>
    match env.requestApproval (confirmationApprovalRequest env request d) with
    | Except.error e => HandlerOutcome.fail ("approval error: " ++ e)
    | Except.ok approval =>
      if 0 < approval.approvedIDs.length then
        let st₁ := { st with scheduler := ApproveCalls 0 sched₁ approval.approvedIDs }
        match paLookup st.pendingApprovals request.callID with
        | some req =>
          match executeToolCallM env st₁ req with
          | HandlerOutcome.ok st₂ =>
            HandlerOutcome.ok
              { st₂ with pendingApprovals := paDelete st₂.pendingApprovals request.callID }
          | other => other
        | none =>
          HandlerOutcome.ok
            { st₁ with pendingApprovals := paDelete st₁.pendingApprovals request.callID }
      else
        HandlerOutcome.ok { st with
          scheduler := RejectCalls sched₁ [request.callID]
          toolResponses := st.toolResponses ++
            [{ role := "tool", name := request.name, content := "Tool call rejected by user"
               toolCallID := request.callID }]
          pendingApprovals := paDelete st.pendingApprovals request.callID }

/-- Go `TurnHandler.handleEvent`: low-risk requests execute immediately,
risky requests wait in `pendingApprovals` for their confirmation event,
error events make the handler return the event's error (aborting the
turn), as does user cancellation. -/
def handleEventM (env : Env) (st : HandlerState) : EventM → HandlerOutcome
  | EventM.content _ => HandlerOutcome.ok st
  | EventM.toolCallRequest e =>
    if AssessToolCallRisk e.name = RiskLevel.low then executeToolCallM env st e
    else HandlerOutcome.ok { st with pendingApprovals := paInsert st.pendingApprovals e.callID e }
  | EventM.toolCallConfirmation request details =>
    handleToolCallConfirmationM env st request details
  | EventM.errorEvent errText _ => HandlerOutcome.fail errText
  | EventM.userCancelled => HandlerOutcome.fail "cancelled by user"

/-- The event-consumption loop of `TurnHandler.HandleTurn` (a panic in one
handler unwinds past the loop). -/
def handleEventsM (env : Env) : List EventM → HandlerState → HandlerOutcome
  | [], st => HandlerOutcome.ok st
  | e :: rest, st =>
    match handleEventM env st e with
    | HandlerOutcome.ok st₁ => handleEventsM env rest st₁
    | other => other

/-- Go `TurnHandler.HandleTurn`: reset `toolResponses`, consume all events. -/
def HandleTurn (env : Env) (st : HandlerState) (tr : TurnResult) : HandlerOutcome :=
  handleEventsM env tr.events { st with toolResponses := [] }

/-- One full turn cycle: run the Turn and drive the handler over its
events. -/
def runTurnCycle (env : Env) (conversation : List ChatMessage) (st : HandlerState) :
    TurnResult × HandlerOutcome :=
  let tr := turnRun env conversation
  (tr, HandleTurn env st tr)

/-- Modelled from the spec: the Execute-tool procedure of §4.7 runs the
`PreToolUse` hooks before invoking the tool; when `should_block` holds it
appends a tool message `"Tool execution blocked: <reason>"`, marks the
scheduler entry `Failed`, and returns without invoking the tool.  This
hook gate is absent from the sources under `src/` (only the hook manager
itself and a `WithHookManager` caller are present), so it is modelled here
from the spec's words and delegates to the source-translated
`executeToolCallM` in the unblocked case. -/
def executeToolCallWithHooks (env : Env) (st : HandlerState) (event : ToolCallRequestEventM) :
    HandlerOutcome :=
  let outputs := env.preHooks event.name event.args
  let blocked := ShouldBlockToolExecution outputs
  if blocked.1 then
    HandlerOutcome.ok { st with
      toolResponses := st.toolResponses ++
        [{ role := "tool", name := event.name
           content := "Tool execution blocked: " ++ blocked.2, toolCallID := event.callID }]
      scheduler := MarkExecuted 0 st.scheduler event.callID none (some blocked.2) }
  else
    executeToolCallM env st event

/-! ## The outer loop (`Agent.ExecuteWithHistory`, event-driven version) -/

/-- Go `ExecutionStep` (the fields the loop writes for every pending call). -/
structure ExecutionStepM where
  stepNumber : Nat
  action : String
  toolName : String
  toolArgs : ArgsMap
deriving Repr, DecidableEq

/-- Go `GeneratedFile`. -/
structure GeneratedFileM where
  path : String
  content : String
  action : String
deriving Repr, DecidableEq

/-- Go `ExecutionResult`. -/
structure ExecResultM where
  success : Bool
  message : String
  generatedFiles : List GeneratedFileM
  steps : List ExecutionStepM
deriving Repr, DecidableEq

/-- The repetition-nudge system message the loop injects. -/
def nudgeMessage : ChatMessage :=
  { role := "system"
    content := "You seem to be repeating the same actions. Please review the previous results and try a different approach." }

/-- The `run_shell` command strings of a step list, in order (steps whose
`command` argument is not a string are skipped, as in the Go loop). -/
def shellCmds (steps : List ExecutionStepM) : List String :=
  steps.filterMap
    (fun s => if s.toolName == "run_shell" then s.toolArgs.getString "command" else none)

/-- Go map read `commands[cmd]` in the repetition detector (zero when
absent). -/
def cmdCount (commands : List (String × Nat)) (cmd : String) : Nat :=
  ((List.find? (fun p => p.1 == cmd) commands).map (fun p => p.2)).getD 0

/-- Go map write `commands[cmd] = n`. -/
def cmdInc (commands : List (String × Nat)) (cmd : String) (n : Nat) :
    List (String × Nat) :=
  (cmd, n) :: commands.filter (fun p => !(p.1 == cmd))

/-- The counting loop of `detectRepetitiveActions`: increment the per-command
counter of each `run_shell` step and return true as soon as a counter
reaches 2. -/
def detectLoop (commands : List (String × Nat)) : List ExecutionStepM → Bool
  | [] => false
  | step :: rest =>
    if step.toolName == "run_shell" then
      match step.toolArgs.getString "command" with
      | some cmd =>
        if 2 ≤ cmdCount commands cmd + 1 then true
        else detectLoop (cmdInc commands cmd (cmdCount commands cmd + 1)) rest
      | none => detectLoop commands rest
    else detectLoop commands rest

/-- Go `Agent.detectRepetitiveActions`: fewer than three steps is never
repetitive; otherwise run the counting loop over the last three steps. -/
def detectRepetitiveActions (steps : List ExecutionStepM) : Bool :=
  if steps.length < 3 then false
  else detectLoop [] (steps.drop (steps.length - 3))

/-- The per-pending-call bookkeeping of the loop: append one step per call
and track `write_file` calls as generated files. -/
def trackCalls : List ToolCallRequestEventM → List ExecutionStepM → List GeneratedFileM →
    List ExecutionStepM × List GeneratedFileM
  | [], steps, files => (steps, files)
  | call :: rest, steps, files =>
    let steps₁ := steps ++
      [{ stepNumber := steps.length + 1, action := "tool_call", toolName := call.name
         toolArgs := call.args }]
    let files₁ :=
      if call.name == "write_file" then
        match call.args.getString "path" with
        | some path =>
          files ++ [{ path := path, content := (call.args.getString "content").getD ""
                      action := "create" }]
        | none => files
      else files
    trackCalls rest steps₁ files₁

/-- What the caller of the agent loop observes: either the Go function
returns its `(result, conversation, error)` triple, or a panic raised in
the handler unwinds out of `ExecuteWithHistory` and crashes the process
(nothing in the repository recovers a panic). -/
inductive LoopOutcome where
  | normal (result : ExecResultM) (conversation : List ChatMessage) (err : Option String)
  | panicked (msg : String)
deriving Repr, DecidableEq

/-- One loop iteration after the repetition check: run the Turn, drive the
handler (a handler error returns early with `"Turn failed: …"` and the
pre-turn conversation; a handler panic unwinds), append the handler's tool
responses, break with `success = true` when the Turn produced no pending
calls (taking the final assistant content as the message), otherwise
record the steps and continue via `cont` (the rest of the loop). -/
def execIter (env : Env) (conversation₁ : List ChatMessage)
    (steps : List ExecutionStepM) (files : List GeneratedFileM) (handler : HandlerState)
    (cont : List ChatMessage → List ExecutionStepM → List GeneratedFileM → HandlerState →
      LoopOutcome) :
    LoopOutcome :=
  let tr := turnRun env conversation₁
  match HandleTurn env handler tr with
  | HandlerOutcome.panicked p => LoopOutcome.panicked p
  | HandlerOutcome.fail e =>
    LoopOutcome.normal
      { success := false, message := "Turn failed: " ++ e, generatedFiles := files
        steps := steps } conversation₁ (some e)
  | HandlerOutcome.ok handler₁ =>
    let conversation₂ := tr.conversation ++ handler₁.toolResponses
    if tr.pendingCalls.isEmpty then
      let message :=
        match conversation₂.getLast? with
        | some lastMsg => if lastMsg.role == "assistant" then lastMsg.content else ""
        | none => ""
      LoopOutcome.normal
        { success := true, message := message, generatedFiles := files, steps := steps }
        conversation₂ none
    else
      let tracked := trackCalls tr.pendingCalls steps files
      cont conversation₂ tracked.1 tracked.2 handler₁

/-- The `for i := 0; i < maxSteps; i++` loop of the event-driven
`Agent.ExecuteWithHistory`, with the remaining iteration count as fuel.
Each iteration first injects the repetition nudge when
`detectRepetitiveActions` fires, then runs the iteration proper
(`execIter`).  Exhausting the fuel leaves the accumulated result with
`success = false` and an empty message (the final step-cap check lives in
`ExecuteWithHistory`). -/
def execGo (env : Env) : Nat → List ChatMessage → List ExecutionStepM →
    List GeneratedFileM → HandlerState → LoopOutcome
  | 0, conversation, steps, files, _ =>
    LoopOutcome.normal
      { success := false, message := "", generatedFiles := files, steps := steps }
      conversation none
  | Nat.succ fuel₁, conversation, steps, files, handler =>
    execIter env
      (if detectRepetitiveActions steps then conversation ++ [nudgeMessage] else conversation)
      steps files handler (execGo env fuel₁)

/-- The fresh `TurnHandler` created by `NewTurnHandler`. -/
def initHandler : HandlerState :=
  { pendingApprovals := [], toolResponses := [], scheduler := emptySched, invoked := [] }

/-- The event-driven `Agent.ExecuteWithHistory`: fresh handler, run the
loop (a panic unwinds past this function too), and — on the non-error
return path only — overwrite the result with `success = false,
message = "Maximum steps reached"` when `len(result.Steps) >= maxSteps`. -/
def ExecuteWithHistory (env : Env) (maxSteps : Nat) (conversation : List ChatMessage) :
    LoopOutcome :=
  match execGo env maxSteps conversation [] [] initHandler with
  | LoopOutcome.panicked p => LoopOutcome.panicked p
  | LoopOutcome.normal res conv err =>
    if err = none then
      if maxSteps ≤ res.steps.length then
        LoopOutcome.normal { res with success := false, message := "Maximum steps reached" }
          conv none
      else LoopOutcome.normal res conv err
    else LoopOutcome.normal res conv err

/-- A deterministic "do nothing" external world used to instantiate
concrete scenarios; each scenario overrides the fields it exercises. -/
def trivialEnv : Env :=
  { registry := []
    parseArgs := fun _ => Except.ok []
    jsonArgs := fun _ => ""
    fmtArgs := fun _ => ""
    statOk := fun _ => false
    readFile := fun _ => none
    replaceAll := fun s _ _ => s
    replaceOne := fun s _ _ => s
    genDiff := fun _ _ _ => ""
    cwd := "/work"
    execute := fun _ _ => ({ llmContent := "ok" }, none)
    requestApproval := fun req => Except.ok { requestID := req.requestID }
    llm := fun _ => Except.error "no llm"
    preHooks := fun _ _ => [] }

/-- Concrete external world for the risk-gating witness: an approver that
rejects everything and a pre-hook that blocks with reason "policy deny". -/
def rejEnv : Env := { trivialEnv with
  registry := ["run_shell"]
  requestApproval := fun req =>
    Except.ok { requestID := req.requestID, rejectedIDs := ["r1"] }
  preHooks := fun _ _ => [{ continueFlag := false, stopReason := "policy deny" }] }

/-- Concrete external world in which the LLM requests the unregistered
tool name "foo". -/
def notFoundEnv : Env := { trivialEnv with
  registry := ["read_file"]
  llm := fun _ =>
    Except.ok { content := "", toolCalls := [{ id := "f1", name := "foo", arguments := "x" }] } }

/-- Concrete external world for the step cap: one LLM reply with three
low-risk calls, then a reply "Done" with no calls. -/
def capEnv : Env := { trivialEnv with
  registry := ["read_file"]
  llm := fun msgs =>
    if (msgs.filter (fun m => m.role == "assistant")).length == 0 then
      Except.ok { content := "", toolCalls :=
        [{ id := "c1", name := "read_file", arguments := "a" },
         { id := "c2", name := "read_file", arguments := "a" },
         { id := "c3", name := "read_file", arguments := "a" }] }
    else Except.ok { content := "Done", toolCalls := [] } }

/-- Occurrences of tool response messages carrying a given
`tool_call_id`. -/
def countResponses (msgs : List ChatMessage) (id : String) : Nat :=
  (msgs.filter (fun m => m.toolCallID == id)).length

/-- Extracts the handler state of a successful outcome (defaulting to the
fresh handler, which no theorem relies on). -/
def okState : HandlerOutcome → HandlerState
  | HandlerOutcome.ok st => st
  | _ => initHandler

/-- Concrete external world for the nil-details panic: the LLM asks to
`edit` a file that cannot be read, so the confirmation details interface
boxes a typed-nil pointer and the handler panics in `GetRisk`. -/
def editEnv : Env := { trivialEnv with
  registry := ["edit"]
  parseArgs := fun _ => Except.ok [("file_path", GoValue.str "/nope")]
  llm := fun _ =>
    Except.ok { content := "", toolCalls := [{ id := "e1", name := "edit", arguments := "x" }] } }

/-- Concrete external world for the coverage example: one Low call and
one approved risky call. -/
def covEnv : Env := { trivialEnv with
  registry := ["read_file", "write_file"]
  requestApproval := fun req =>
    Except.ok { requestID := req.requestID, approvedIDs := [req.requestID] }
  llm := fun _ =>
    Except.ok { content := "", toolCalls :=
      [{ id := "a", name := "read_file", arguments := "x" },
       { id := "b", name := "write_file", arguments := "y" }] } }

/-! ## Helper lemmas -/

theorem foldl_charCount (f : ChatMessage → Nat) :
    ∀ (l : List ChatMessage) (a : Nat),
      l.foldl (fun acc m => acc + f m + 10) a = a + (l.map f).sum + 10 * l.length := by
  intro l
  induction l with
  | nil => intro a; simp
  | cons m rest ih =>
    intro a
    simp only [List.foldl_cons, List.map_cons, List.sum_cons, List.length_cons]
    rw [ih]
    ring

theorem find_filter_ne (c cmd : String) (h : c ≠ cmd) :
    ∀ m : List (String × Nat),
      List.find? (fun p => p.1 == c) (m.filter (fun p => !(p.1 == cmd))) =
        List.find? (fun p => p.1 == c) m := by
  have h' : cmd ≠ c := fun he => h he.symm
  intro m
  induction m with
  | nil => rfl
  | cons kv m' ih =>
    by_cases hk : kv.1 = cmd
    · simp [List.filter_cons, List.find?_cons, hk, h', ih]
    · by_cases hc : kv.1 = c
      · simp [List.filter_cons, List.find?_cons, hk, hc, h]
      · simp [List.filter_cons, List.find?_cons, hk, hc, ih]

theorem cmdCount_cmdInc (commands : List (String × Nat)) (cmd c : String) (n : Nat) :
    cmdCount (cmdInc commands cmd n) c = if c = cmd then n else cmdCount commands c := by
  by_cases h : c = cmd
  · subst h
    simp [cmdCount, cmdInc]
  · rw [if_neg h]
    have h' : cmd ≠ c := fun he => h he.symm
    simp [cmdCount, cmdInc, List.find?_cons, h', find_filter_ne c cmd h commands]

theorem detectLoop_iff :
    ∀ (l : List ExecutionStepM) (commands : List (String × Nat)),
      detectLoop commands l = true ↔
        (∃ c ∈ shellCmds l, 1 ≤ cmdCount commands c) ∨ ¬ (shellCmds l).Nodup := by
  intro l
  induction l with
  | nil =>
    intro commands
    simp [detectLoop, shellCmds]
  | cons step rest ih =>
    intro commands
    by_cases hsh : (step.toolName == "run_shell") = true
    · have hshp : step.toolName = "run_shell" := by simpa using hsh
      cases hcmd : step.toolArgs.getString "command" with
      | none =>
        have hcms : shellCmds (step :: rest) = shellCmds rest := by
          simp [shellCmds, List.filterMap_cons, hshp, hcmd]
        have hd : detectLoop commands (step :: rest) = detectLoop commands rest := by
          simp [detectLoop, hsh, hcmd]
        rw [hd, hcms]
        exact ih commands
      | some cmd =>
        have hcms : shellCmds (step :: rest) = cmd :: shellCmds rest := by
          simp [shellCmds, List.filterMap_cons, hshp, hcmd]
        rw [hcms]
        by_cases hge : 1 ≤ cmdCount commands cmd
        · have hd : detectLoop commands (step :: rest) = true := by
            simp [detectLoop, hsh, hcmd]
            omega
          rw [hd]
          constructor
          · intro _
            exact Or.inl ⟨cmd, List.mem_cons_self cmd (shellCmds rest), hge⟩
          · intro _
            rfl
        · have h0 : cmdCount commands cmd = 0 := by omega
          have hd : detectLoop commands (step :: rest) =
              detectLoop (cmdInc commands cmd (cmdCount commands cmd + 1)) rest := by
            have : ¬ 2 ≤ cmdCount commands cmd + 1 := by omega
            simp [detectLoop, hsh, hcmd, this]
          rw [hd, ih]
          have hsplit : (∃ c ∈ shellCmds rest,
              1 ≤ cmdCount (cmdInc commands cmd (cmdCount commands cmd + 1)) c) ↔
              (cmd ∈ shellCmds rest ∨ ∃ c ∈ shellCmds rest, 1 ≤ cmdCount commands c) := by
            constructor
            · rintro ⟨c, hc, hcge⟩
              rw [cmdCount_cmdInc] at hcge
              by_cases he : c = cmd
              · exact Or.inl (he ▸ hc)
              · rw [if_neg he] at hcge
                exact Or.inr ⟨c, hc, hcge⟩
            · rintro (hm | ⟨c, hc, hcge⟩)
              · refine ⟨cmd, hm, ?_⟩
                rw [cmdCount_cmdInc, if_pos rfl]
                omega
              · by_cases he : c = cmd
                · refine ⟨cmd, he ▸ hc, ?_⟩
                  rw [cmdCount_cmdInc, if_pos rfl]
                  omega
                · refine ⟨c, hc, ?_⟩
                  rw [cmdCount_cmdInc, if_neg he]
                  exact hcge
          rw [hsplit]
          have hexc : (∃ c ∈ cmd :: shellCmds rest, 1 ≤ cmdCount commands c) ↔
              (∃ c ∈ shellCmds rest, 1 ≤ cmdCount commands c) := by
            constructor
            · rintro ⟨c, hc, hcge⟩
              rcases List.mem_cons.mp hc with he | hm
              · subst he
                omega
              · exact ⟨c, hm, hcge⟩
            · rintro ⟨c, hc, hcge⟩
              exact ⟨c, List.mem_cons_of_mem cmd hc, hcge⟩
          rw [hexc]
          simp only [List.nodup_cons, not_and_or, not_not]
          clear hsplit hexc
          constructor
          · rintro ((hm | he) | hn)
            · exact Or.inr (Or.inl hm)
            · exact Or.inl he
            · exact Or.inr (Or.inr hn)
          · rintro (he | hm | hn)
            · exact Or.inl (Or.inr he)
            · exact Or.inl (Or.inl hm)
            · exact Or.inr hn
    · have hsh' : (step.toolName == "run_shell") = false := by simpa using hsh
      have hshp' : ¬ step.toolName = "run_shell" := by simpa using hsh
      have hcms : shellCmds (step :: rest) = shellCmds rest := by
        simp [shellCmds, List.filterMap_cons, hshp']
      have hd : detectLoop commands (step :: rest) = detectLoop commands rest := by
        simp [detectLoop, hsh']
      rw [hd, hcms]
      exact ih commands

/-! ## Claim C9 — token estimation -/

/-- Claim C9 as stated is false: the source adds the 10-per-message
overhead BEFORE dividing by 4.  On a single message with empty content the
code yields `10 / 4 = 2` while the claimed formula yields `0 / 4 + 10 = 10`. -/
theorem estimateTokens_counterexample :
    estimateTokens [{ role := "user", content := "" }] = 2 ∧
      specEstimateTokens [{ role := "user", content := "" }] = 10 ∧
      estimateTokens [{ role := "user", content := "" }] ≠
        specEstimateTokens [{ role := "user", content := "" }] := by
  refine ⟨rfl, rfl, ?_⟩
  decide

/-- Claim C9, amended: for every message list, `estimateTokens` equals the
total content byte count PLUS 10 per message, all divided by 4 — i.e.
`(chars + 10·n) / 4`, not `chars/4 + 10·n`. -/
theorem estimateTokens_amended (messages : List ChatMessage) :
    estimateTokens messages =
      ((messages.map (fun m => m.content.utf8ByteSize)).sum + 10 * messages.length) / 4 := by
  unfold estimateTokens
  rw [foldl_charCount (fun m => m.content.utf8ByteSize) messages 0]
  simp

/-! ## Claim C6 — hook aggregation -/

/-- Claim C6 as stated is false for the auto-approve half:
`ShouldAutoApprove` never consults the blocking conditions.  A single hook
output with `continue = false` (blocking) and `decision = "approve"` is
auto-approved even though it is also blocking. -/
theorem hookAggregation_counterexample :
    (ShouldAutoApprove [{ continueFlag := false, decision := "approve" }]).1 = true ∧
      ([{ continueFlag := false, decision := "approve" : HookOutput }].any specIsBlocking) = true ∧
      (ShouldAutoApprove [{ continueFlag := false, decision := "approve" }]).1 ≠
        (([{ continueFlag := false, decision := "approve" : HookOutput }].any specIsApproving) &&
          !([{ continueFlag := false, decision := "approve" : HookOutput }].any specIsBlocking)) := by
  refine ⟨rfl, rfl, ?_⟩
  decide

/-- Claim C6, amended: `ShouldBlockToolExecution` is true iff some output
is blocking (`continue = false`, `permissionDecision = deny`, or
`decision ∈ \x7bdeny, block\x7d`), and `ShouldAutoApprove` is true iff some
output is explicitly approving (`permissionDecision = allow` or
`decision ∈ \x7bapprove, allow\x7d`) — independently of whether any output
is blocking. -/
theorem hookAggregation_amended (outputs : List HookOutput) :
    (ShouldBlockToolExecution outputs).1 = outputs.any specIsBlocking ∧
      (ShouldAutoApprove outputs).1 = outputs.any specIsApproving := by
  induction outputs with
  | nil => exact ⟨rfl, rfl⟩
  | cons o rest ih =>
    constructor
    · show (ShouldBlockToolExecution (o :: rest)).1 = _
      simp only [ShouldBlockToolExecution, List.any_cons]
      cases hso : o.hookSpecificOutput with
      | preToolUse pd pdReason =>
        by_cases hc : o.continueFlag <;>
          by_cases hpd : pd = "deny" <;>
            by_cases hd : (o.decision = "deny" ∨ o.decision = "block") <;>
              simp_all [specIsBlocking, ih.1, beq_iff_eq]
      | _ =>
        by_cases hc : o.continueFlag <;>
          by_cases hd : (o.decision = "deny" ∨ o.decision = "block") <;>
            simp_all [specIsBlocking, ih.1, beq_iff_eq]
    · show (ShouldAutoApprove (o :: rest)).1 = _
      simp only [ShouldAutoApprove, List.any_cons]
      cases hso : o.hookSpecificOutput with
      | preToolUse pd pdReason =>
        by_cases hpd : pd = "allow" <;>
          by_cases hd : (o.decision = "approve" ∨ o.decision = "allow") <;>
            simp_all [specIsApproving, ih.2, beq_iff_eq]
      | _ =>
        by_cases hd : (o.decision = "approve" ∨ o.decision = "allow") <;>
          simp_all [specIsApproving, ih.2, beq_iff_eq]

/-! ## Claim C10 — shell blocklist -/

/-- Claim C10, confirmed: with a string `command` argument present,
`RunShellTool.Execute` returns the blocked error — spawning nothing — iff
the lower-cased command contains one of the five dangerous substrings, and
otherwise hands exactly `sh -c <command>` to the process spawner. -/
theorem runShell_blocklist (args : ArgsMap) (command : String)
    (h : args.getString "command" = some command) :
    (dangerousCommands.any (fun dangerous => goContains (goToLower command) dangerous) = true →
        RunShellExecute args = ShellOutcome.blocked command) ∧
      (dangerousCommands.any (fun dangerous => goContains (goToLower command) dangerous) = false →
        RunShellExecute args = ShellOutcome.spawned "sh" ["-c", command]) := by
  unfold RunShellExecute
  rw [h]
  constructor
  · intro hd; simp [hd]
  · intro hd; simp [hd]

/-- Witness: a command containing `SUDO` (case-insensitively matching
`sudo`) is blocked; a harmless `echo hi` is handed to `sh -c`. -/
theorem runShell_blocklist_witness :
    RunShellExecute [("command", GoValue.str "SUDO rm /x")] = ShellOutcome.blocked "SUDO rm /x" ∧
      RunShellExecute [("command", GoValue.str "echo hi")] =
        ShellOutcome.spawned "sh" ["-c", "echo hi"] :=
  ⟨(runShell_blocklist [("command", GoValue.str "SUDO rm /x")] "SUDO rm /x" rfl).1 (by decide),
    (runShell_blocklist [("command", GoValue.str "echo hi")] "echo hi" rfl).2 (by decide)⟩

/-! ## Claim C5 — scheduler state machine -/

theorem approveCalls_lookup (now : Nat) :
    ∀ (ids : List String) (s : SchedState) (k : String),
      ApproveCalls now s ids k =
        match s k with
        | some c =>
          if k ∈ ids ∧ c.status = ToolCallStatus.pending then
            some { c with status := ToolCallStatus.approved, approvedAt := some now }
          else some c
        | none => none := by
  intro ids
  induction ids with
  | nil =>
    intro s k
    cases hs : s k <;> simp [ApproveCalls, hs]
  | cons i rest ih =>
    intro s k
    have hstep : ApproveCalls now s (i :: rest) =
        ApproveCalls now (fun k' =>
          if k' == i then
            match s i with
            | some c =>
              if c.status = ToolCallStatus.pending then
                some { c with status := ToolCallStatus.approved, approvedAt := some now }
              else some c
            | none => none
          else s k') rest := rfl
    rw [hstep, ih]
    by_cases hk : k = i
    · subst hk
      cases hs : s k with
      | none => simp [hs]
      | some c =>
        by_cases hp : c.status = ToolCallStatus.pending
        · simp [hs, hp]
        · simp [hs, hp]
    · have hbk : (k == i) = false := by simp [hk]
      cases hs : s k with
      | none => simp [hs, hbk]
      | some c =>
        by_cases hp : c.status = ToolCallStatus.pending
        · simp [hs, hbk, hp, hk]
        · simp [hs, hbk, hp, hk]

theorem rejectCalls_lookup :
    ∀ (ids : List String) (s : SchedState) (k : String),
      RejectCalls s ids k =
        match s k with
        | some c =>
          if k ∈ ids ∧ c.status = ToolCallStatus.pending then
            some { c with status := ToolCallStatus.rejected }
          else some c
        | none => none := by
  intro ids
  induction ids with
  | nil =>
    intro s k
    cases hs : s k <;> simp [RejectCalls, hs]
  | cons i rest ih =>
    intro s k
    have hstep : RejectCalls s (i :: rest) =
        RejectCalls (fun k' =>
          if k' == i then
            match s i with
            | some c =>
              if c.status = ToolCallStatus.pending then
                some { c with status := ToolCallStatus.rejected }
              else some c
            | none => none
          else s k') rest := rfl
    rw [hstep, ih]
    by_cases hk : k = i
    · subst hk
      cases hs : s k with
      | none => simp [hs]
      | some c =>
        by_cases hp : c.status = ToolCallStatus.pending
        · simp [hs, hp]
        · simp [hs, hp]
    · have hbk : (k == i) = false := by simp [hk]
      cases hs : s k with
      | none => simp [hs, hbk]
      | some c =>
        by_cases hp : c.status = ToolCallStatus.pending
        · simp [hs, hbk, hp, hk]
        · simp [hs, hbk, hp, hk]

theorem markExecuted_lookup (now : Nat) (s : SchedState) (callID : String)
    (res : Option GoValue) (err : Option String) :
    MarkExecuted now s callID res err callID =
      match s callID with
      | some c =>
        some { c with
          executedAt := some now, result := res, error := err
          status := if err.isSome then ToolCallStatus.failed else ToolCallStatus.executed }
      | none => none := by
  cases hs : s callID <;> simp [MarkExecuted, hs]

/-- Claim C5 as stated is false: `MarkExecuted` carries no status guard, so
a call that was scheduled (`Pending`) and never approved moves directly to
`Executed` — with `approvedAt` still unset — by a single `MarkExecuted`
call. -/
theorem scheduler_counterexample :
    ((ScheduleToolCalls 5 emptySched [{ id := "x", name := "run_shell", arguments := "a" }]) "x").map
        PendingToolCall.status = some ToolCallStatus.pending ∧
      ((MarkExecuted 6
          (ScheduleToolCalls 5 emptySched [{ id := "x", name := "run_shell", arguments := "a" }])
          "x" none none) "x").map PendingToolCall.status = some ToolCallStatus.executed ∧
      ((MarkExecuted 6
          (ScheduleToolCalls 5 emptySched [{ id := "x", name := "run_shell", arguments := "a" }])
          "x" none none) "x").map PendingToolCall.approvedAt = some none := by
  refine ⟨rfl, rfl, rfl⟩

/-- Claim C5, amended: `ApproveCalls` and `RejectCalls` respect the state
machine (they move a status only out of `Pending`, to `Approved` resp.
`Rejected`, and leave every other status unchanged), but `MarkExecuted`
sets ANY tracked call — whatever its status, approved or not — to
`Executed` or `Failed`; the scheduler itself does not prevent
`Pending → Executed` without an intervening `Approved`. -/
theorem scheduler_amended (s : SchedState) (now : Nat) (ids : List String) (k : String)
    (res : Option GoValue) (err : Option String) :
    ((ApproveCalls now s ids k).map PendingToolCall.status = (s k).map PendingToolCall.status
      ∨ ((s k).map PendingToolCall.status = some ToolCallStatus.pending
          ∧ (ApproveCalls now s ids k).map PendingToolCall.status = some ToolCallStatus.approved))
    ∧ ((RejectCalls s ids k).map PendingToolCall.status = (s k).map PendingToolCall.status
      ∨ ((s k).map PendingToolCall.status = some ToolCallStatus.pending
          ∧ (RejectCalls s ids k).map PendingToolCall.status = some ToolCallStatus.rejected))
    ∧ ((s k).isSome = true →
        (MarkExecuted now s k res err k).map PendingToolCall.status =
          some (if err.isSome then ToolCallStatus.failed else ToolCallStatus.executed)) := by
  refine ⟨?_, ?_, ?_⟩
  · rw [approveCalls_lookup]
    cases hs : s k with
    | none => left; rfl
    | some c =>
      by_cases hcond : k ∈ ids ∧ c.status = ToolCallStatus.pending
      · right; simp [hcond, hcond.2]
      · left; simp [hcond]
  · rw [rejectCalls_lookup]
    cases hs : s k with
    | none => left; rfl
    | some c =>
      by_cases hcond : k ∈ ids ∧ c.status = ToolCallStatus.pending
      · right; simp [hcond, hcond.2]
      · left; simp [hcond]
  · intro hsome
    rw [markExecuted_lookup]
    cases hs : s k with
    | none => rw [hs] at hsome; simp at hsome
    | some c => simp

/-- Witness for the amended C5 at a concrete scheduler: a freshly
scheduled call is tracked, and `MarkExecuted` with no error yields
`Executed`. -/
theorem scheduler_amended_witness :
    ((ScheduleToolCalls 0 emptySched [{ id := "w", name := "grep", arguments := "" }]) "w").isSome
        = true ∧
      (MarkExecuted 1 (ScheduleToolCalls 0 emptySched [{ id := "w", name := "grep", arguments := "" }])
          "w" none none "w").map PendingToolCall.status =
        some (if (none : Option String).isSome then ToolCallStatus.failed
              else ToolCallStatus.executed) :=
  ⟨by decide,
    (scheduler_amended (ScheduleToolCalls 0 emptySched [{ id := "w", name := "grep", arguments := "" }])
      1 [] "w" none none).2.2 (by decide)⟩

/-! ## Claim C2 — orphan filtering -/

instance msgWF.instDecidable (m : ChatMessage) : Decidable (msgWF m) := by
  unfold msgWF
  infer_instance

theorem filterGo_cons_tool_none (m : ChatMessage) (rest : List ChatMessage)
    (h : (m.role == "tool") = true) :
    filterGo none (m :: rest) = filterGo (some m) rest := by
  simp [filterGo, h]

theorem filterGo_cons_tool_empty (p m : ChatMessage) (rest : List ChatMessage)
    (h : (m.role == "tool") = true) (he : p.toolCalls.isEmpty = true) :
    filterGo (some p) (m :: rest) = filterGo (some m) rest := by
  simp [filterGo, h, he]

theorem filterGo_cons_tool_keep (p m : ChatMessage) (rest : List ChatMessage)
    (h : (m.role == "tool") = true) (he : p.toolCalls.isEmpty = false) :
    filterGo (some p) (m :: rest) = m :: filterGo (some m) rest := by
  simp [filterGo, h, he]

theorem filterGo_cons_nontool (prev : Option ChatMessage) (m : ChatMessage)
    (rest : List ChatMessage) (h : (m.role == "tool") = false) :
    filterGo prev (m :: rest) = m :: filterGo (some m) rest := by
  cases prev <;> simp [filterGo, h]

theorem weakGo_cons (prev : Option ChatMessage) (m : ChatMessage) (l : List ChatMessage) :
    weakOrphanSafeGo prev (m :: l) =
      ((if m.role == "tool" then
          match prev with
          | some p => p.role == "assistant" && !p.toolCalls.isEmpty
          | none => false
        else true) && weakOrphanSafeGo (some m) l) := rfl

theorem filterGo_weakSafe :
    ∀ (ms : List ChatMessage) (prevOrig prevOut : Option ChatMessage),
      (∀ m ∈ ms, msgWF m) →
      (∀ p, prevOrig = some p → p.toolCalls ≠ [] → p.role = "assistant") →
      (∀ p, prevOrig = some p → p.toolCalls ≠ [] → prevOut = some p) →
      weakOrphanSafeGo prevOut (filterGo prevOrig ms) = true := by
  intro ms
  induction ms with
  | nil => intro prevOrig prevOut _ _ _; rfl
  | cons m rest ih =>
    intro prevOrig prevOut hwf hprevWF hR
    have hm : msgWF m := hwf m (List.mem_cons_self m rest)
    have hrest : ∀ x ∈ rest, msgWF x := fun x hx => hwf x (List.mem_cons_of_mem m hx)
    have hnextWF : ∀ p, some m = some p → p.toolCalls ≠ [] → p.role = "assistant" := by
      intro p hp hne
      cases hp
      exact hm.1 hne
    by_cases hrole : m.role = "tool"
    · have hb : (m.role == "tool") = true := by simp [hrole]
      have hcalls : m.toolCalls = [] := hm.2 hrole
      have hnextR : ∀ (prevOut' : Option ChatMessage) p,
          some m = some p → p.toolCalls ≠ [] → prevOut' = some p := by
        intro prevOut' p hp hne
        cases hp
        exact absurd hcalls hne
      cases hp : prevOrig with
      | none =>
        rw [filterGo_cons_tool_none m rest hb]
        exact ih (some m) prevOut hrest hnextWF (hnextR prevOut)
      | some p =>
        cases hempty : p.toolCalls.isEmpty with
        | true =>
          rw [filterGo_cons_tool_empty p m rest hb hempty]
          exact ih (some m) prevOut hrest hnextWF (hnextR prevOut)
        | false =>
          have hnonnil : p.toolCalls ≠ [] := by
            intro hc
            rw [hc] at hempty
            exact Bool.true_eq_false.mp hempty
          have hpassist : p.role = "assistant" := hprevWF p hp hnonnil
          have hpout : prevOut = some p := hR p hp hnonnil
          rw [filterGo_cons_tool_keep p m rest hb hempty, hpout, weakGo_cons,
            Bool.and_eq_true]
          refine ⟨by simp [hb, hpassist, hempty], ?_⟩
          exact ih (some m) (some m) hrest hnextWF (hnextR (some m))
    · have hb : (m.role == "tool") = false := by simp [hrole]
      have hnextR : ∀ p, some m = some p → p.toolCalls ≠ [] →
          (some m : Option ChatMessage) = some p := by
        intro p hp _
        exact hp
      rw [filterGo_cons_nontool prevOrig m rest hb, weakGo_cons, Bool.and_eq_true]
      exact ⟨by simp [hb], ih (some m) (some m) hrest hnextWF hnextR⟩

/-- Claim C2 as stated is false: the filter only checks that the preceding
message has SOME tool calls, never that it contains the tool message's
`tool_call_id`.  A well-formed conversation whose tool message answers id
"b" after an assistant message offering only id "a" passes through the
filter unchanged and violates the claimed property. -/
theorem orphanFilter_counterexample :
    msgWF { role := "assistant", content := ""
            toolCalls := [{ id := "a", name := "read_file", arguments := "" }] } ∧
      msgWF { role := "tool", content := "out", name := "read_file", toolCallID := "b" } ∧
      orphanSafe (filterConversationForLLM
        [{ role := "assistant", content := ""
           toolCalls := [{ id := "a", name := "read_file", arguments := "" }] },
         { role := "tool", content := "out", name := "read_file", toolCallID := "b" }]) = false := by
  refine ⟨by decide, by decide, rfl⟩

/-- Claim C2, amended: for conversations in which only assistant messages
carry tool calls (as the agent constructs them), the filtered conversation
satisfies the weaker invariant that every tool message is immediately
preceded by an assistant message with a NON-EMPTY `tool_calls` list; the
id-membership part of the claim is not established by the filter. -/
theorem orphanFilter_amended (ms : List ChatMessage) (hwf : ∀ m ∈ ms, msgWF m) :
    weakOrphanSafe (filterConversationForLLM ms) = true :=
  filterGo_weakSafe ms none none hwf
    (fun p hp => absurd hp (by simp))
    (fun p hp => absurd hp (by simp))

/-- Witness: the same concrete conversation is well-formed and its
filtering satisfies the weak invariant. -/
theorem orphanFilter_witness :
    weakOrphanSafe (filterConversationForLLM
      [{ role := "assistant", content := ""
         toolCalls := [{ id := "a", name := "read_file", arguments := "" }] },
       { role := "tool", content := "out", name := "read_file", toolCallID := "b" }]) = true :=
  orphanFilter_amended _ (by decide)

/-! ## Claim C3 — risk gating -/

/-- Claim C3, confirmed (risky calls reach execution only through
approval): under the approver contract of the spec — the response's ids
cover only the ids of the request, here the single confirmed call — a call
whose id is not in `approved_ids` takes the rejection branch: the handler
appends exactly the `"Tool call rejected by user"` message, the scheduler
entry ends `Rejected`, and no tool is invoked.  The pre-hook half uses the
spec-modelled Execute-tool gate: when `should_block` holds, the blocked
marker is appended, the scheduler entry is marked failed, and again no
tool is invoked. -/
theorem riskGating (env : Env) (st : HandlerState) (request : ToolCallRequestEventM)
    (details : ConfirmDetails) (r : ApprovalResponseM) (e : ToolCallRequestEventM)
    (happr : env.requestApproval (confirmationApprovalRequest env request details) =
      Except.ok r)
    (hcov : ∀ i ∈ r.approvedIDs, i = request.callID) :
    (request.callID ∉ r.approvedIDs →
      handleToolCallConfirmationM env st request { ptr := some details } =
        HandlerOutcome.ok { st with
          scheduler := RejectCalls
            (ScheduleToolCalls 0 st.scheduler [confirmationToolCall env request])
            [request.callID]
          toolResponses := st.toolResponses ++
            [{ role := "tool", name := request.name, content := "Tool call rejected by user"
               toolCallID := request.callID }]
          pendingApprovals := paDelete st.pendingApprovals request.callID }
      ∧ ∀ st', handleToolCallConfirmationM env st request { ptr := some details } =
            HandlerOutcome.ok st' →
          st'.invoked = st.invoked
            ∧ (st'.scheduler request.callID).map PendingToolCall.status =
                some ToolCallStatus.rejected)
    ∧ ((ShouldBlockToolExecution (env.preHooks e.name e.args)).1 = true →
      executeToolCallWithHooks env st e =
        HandlerOutcome.ok { st with
          toolResponses := st.toolResponses ++
            [{ role := "tool", name := e.name
               content := "Tool execution blocked: " ++
                 (ShouldBlockToolExecution (env.preHooks e.name e.args)).2
               toolCallID := e.callID }]
          scheduler := MarkExecuted 0 st.scheduler e.callID none
            (some (ShouldBlockToolExecution (env.preHooks e.name e.args)).2) }
      ∧ ∀ st', executeToolCallWithHooks env st e = HandlerOutcome.ok st' →
          st'.invoked = st.invoked) := by
  constructor
  · intro hnm
    have hempty : r.approvedIDs = [] := by
      cases hA : r.approvedIDs with
      | nil => rfl
      | cons i rest =>
        exfalso
        have hi : i = request.callID := hcov i (by rw [hA]; exact List.mem_cons_self i rest)
        apply hnm
        rw [hA, hi]
        exact List.mem_cons_self request.callID rest
    have hres : handleToolCallConfirmationM env st request { ptr := some details } =
        HandlerOutcome.ok { st with
          scheduler := RejectCalls
            (ScheduleToolCalls 0 st.scheduler [confirmationToolCall env request])
            [request.callID]
          toolResponses := st.toolResponses ++
            [{ role := "tool", name := request.name, content := "Tool call rejected by user"
               toolCallID := request.callID }]
          pendingApprovals := paDelete st.pendingApprovals request.callID } := by
      simp [handleToolCallConfirmationM, happr, hempty]
    refine ⟨hres, ?_⟩
    intro st' hst'
    rw [hres] at hst'
    cases hst'
    refine ⟨rfl, ?_⟩
    show Option.map PendingToolCall.status
        (RejectCalls (ScheduleToolCalls 0 st.scheduler [confirmationToolCall env request])
          [request.callID] request.callID) = some ToolCallStatus.rejected
    rw [rejectCalls_lookup]
    have hsched : (ScheduleToolCalls 0 st.scheduler [confirmationToolCall env request])
        request.callID =
        some { id := request.callID, toolCall := confirmationToolCall env request
               status := ToolCallStatus.pending, createdAt := 0 } := by
      simp [ScheduleToolCalls, scheduleOne, confirmationToolCall]
    rw [hsched]
    simp
  · intro hblock
    have hres : executeToolCallWithHooks env st e =
        HandlerOutcome.ok { st with
          toolResponses := st.toolResponses ++
            [{ role := "tool", name := e.name
               content := "Tool execution blocked: " ++
                 (ShouldBlockToolExecution (env.preHooks e.name e.args)).2
               toolCallID := e.callID }]
          scheduler := MarkExecuted 0 st.scheduler e.callID none
            (some (ShouldBlockToolExecution (env.preHooks e.name e.args)).2) } := by
      simp [executeToolCallWithHooks, hblock]
    refine ⟨hres, ?_⟩
    intro st' hst'
    rw [hres] at hst'
    cases hst'
    rfl

/-- Witness for the risk-gating theorem at a concrete rejected `run_shell`
call and a concrete blocked call. -/
theorem riskGating_witness :
    handleToolCallConfirmationM rejEnv initHandler
        { callID := "r1", name := "run_shell", args := [] }
        { ptr := some (ConfirmDetails.exec "run_shell" "rm /tmp/x" "/work" RiskLevel.high) } =
      HandlerOutcome.ok { initHandler with
        scheduler := RejectCalls
          (ScheduleToolCalls 0 initHandler.scheduler
            [confirmationToolCall rejEnv { callID := "r1", name := "run_shell", args := [] }])
          ["r1"]
        toolResponses := initHandler.toolResponses ++
          [{ role := "tool", name := "run_shell", content := "Tool call rejected by user"
             toolCallID := "r1" }]
        pendingApprovals := paDelete initHandler.pendingApprovals "r1" } ∧
      executeToolCallWithHooks rejEnv initHandler
        { callID := "s1", name := "run_shell", args := [] } =
      HandlerOutcome.ok { initHandler with
        toolResponses := initHandler.toolResponses ++
          [{ role := "tool", name := "run_shell"
             content := "Tool execution blocked: " ++
               (ShouldBlockToolExecution
                 (rejEnv.preHooks "run_shell" ([] : ArgsMap))).2
             toolCallID := "s1" }]
        scheduler := MarkExecuted 0 initHandler.scheduler "s1" none
          (some (ShouldBlockToolExecution
            (rejEnv.preHooks "run_shell" ([] : ArgsMap))).2) } :=
  ⟨((riskGating rejEnv initHandler { callID := "r1", name := "run_shell", args := [] }
      (ConfirmDetails.exec "run_shell" "rm /tmp/x" "/work" RiskLevel.high)
      { requestID := "r1", rejectedIDs := ["r1"] }
      { callID := "s1", name := "run_shell", args := [] }
      rfl (by decide)).1 (by decide)).1,
    ((riskGating rejEnv initHandler { callID := "r1", name := "run_shell", args := [] }
      (ConfirmDetails.exec "run_shell" "rm /tmp/x" "/work" RiskLevel.high)
      { requestID := "r1", rejectedIDs := ["r1"] }
      { callID := "s1", name := "run_shell", args := [] }
      rfl (by decide)).2 (by decide)).1⟩

/-! ## Claim C4 — tool-not-found handling -/

/-- Claim C4 as stated is false: on an unknown tool name the Turn emits the
error event and the handler ABORTS the invocation — `ExecuteWithHistory`
returns the error with message `"Turn failed: tool not found: foo"` and the
unchanged input conversation, i.e. no `"tool not found"` tool response is
ever appended and the invocation does not continue. -/
theorem toolNotFound_counterexample :
    ExecuteWithHistory notFoundEnv 2 [{ role := "user", content := "hi" }] =
      LoopOutcome.normal
        { success := false, message := "Turn failed: " ++ "tool not found: foo"
          generatedFiles := [], steps := [] }
        [{ role := "user", content := "hi" }] (some ("tool not found: foo")) := by
  decide

/-- Claim C4, amended: when the LLM requests a tool name absent from the
registry (with parseable arguments), the Turn emits an Error event, the
handler appends NO tool response, and the invocation aborts with
`success = false` and message `"Turn failed: tool not found: <name>"`,
returning the pre-turn conversation. -/
theorem toolNotFound_amended (env : Env) (fuel : Nat) (conv : List ChatMessage)
    (steps : List ExecutionStepM) (files : List GeneratedFileM) (handler : HandlerState)
    (reply : LLMReply) (tc : ToolCall) (args : ArgsMap)
    (hdet : detectRepetitiveActions steps = false)
    (hllm : env.llm (filterConversationForLLM conv) = Except.ok reply)
    (hcalls : reply.toolCalls = [tc])
    (hparse : env.parseArgs tc.arguments = Except.ok args)
    (hmiss : env.registry.contains tc.name = false) :
    EventM.errorEvent ("tool not found: " ++ tc.name) ("Unknown tool: " ++ tc.name)
        ∈ (turnRun env conv).events
    ∧ execGo env (fuel + 1) conv steps files handler =
        LoopOutcome.normal
          { success := false, message := "Turn failed: " ++ ("tool not found: " ++ tc.name)
            generatedFiles := files, steps := steps } conv
          (some ("tool not found: " ++ tc.name)) := by
  have hTR : turnRun env conv =
      { events := (if reply.content == "" then [] else [EventM.content reply.content]) ++
          [EventM.errorEvent ("tool not found: " ++ tc.name) ("Unknown tool: " ++ tc.name)]
        conversation := conv ++
          [{ role := "assistant", content := reply.content, toolCalls := reply.toolCalls }]
        pendingCalls := [{ callID := if tc.id == "" then tc.name ++ "-" ++ toString 0 else tc.id
                           name := tc.name, args := args }] } := by
    have hmiss' : ¬ tc.name ∈ env.registry := by simpa using hmiss
    simp [turnRun, hllm, hcalls, turnCallsEvents, handleToolCallM, hparse, hmiss, hmiss']
  have hHT : HandleTurn env handler (turnRun env conv) =
      HandlerOutcome.fail ("tool not found: " ++ tc.name) := by
    rw [hTR]
    unfold HandleTurn
    cases hc : reply.content == "" <;> simp [hc, handleEventsM, handleEventM]
  constructor
  · rw [hTR]
    cases hc : reply.content == "" <;> simp [hc]
  · show execIter env
      (if detectRepetitiveActions steps then conv ++ [nudgeMessage] else conv)
      steps files handler (execGo env fuel) = _
    rw [hdet]
    simp only [if_neg (by simp : ¬ (false = true))]
    simp only [execIter, hHT]

/-- Witness for the amended C4 at the concrete environment. -/
theorem toolNotFound_amended_witness :
    EventM.errorEvent ("tool not found: " ++ "foo") ("Unknown tool: " ++ "foo")
        ∈ (turnRun notFoundEnv [{ role := "user", content := "hi" }]).events
    ∧ execGo notFoundEnv (1 + 1) [{ role := "user", content := "hi" }] [] [] initHandler =
        LoopOutcome.normal
          { success := false, message := "Turn failed: " ++ ("tool not found: " ++ "foo")
            generatedFiles := [], steps := [] } [{ role := "user", content := "hi" }]
          (some ("tool not found: " ++ "foo")) :=
  toolNotFound_amended notFoundEnv 1 [{ role := "user", content := "hi" }] [] [] initHandler
    { content := "", toolCalls := [{ id := "f1", name := "foo", arguments := "x" }] }
    { id := "f1", name := "foo", arguments := "x" } []
    (by decide) rfl rfl rfl (by decide)

/-! ## Claim C7 — the step cap -/

theorem execGo_shape (env : Env) :
    ∀ (fuel : Nat) (conv : List ChatMessage) (steps : List ExecutionStepM)
      (files : List GeneratedFileM) (handler : HandlerState) (res : ExecResultM)
      (conv' : List ChatMessage),
      execGo env fuel conv steps files handler = LoopOutcome.normal res conv' none →
      res.success = true ∨ res.message = "" := by
  intro fuel
  induction fuel with
  | zero =>
    intro conv steps files handler res conv' hE
    simp only [execGo, LoopOutcome.normal.injEq] at hE
    right
    rw [← hE.1]
  | succ f ih =>
    intro conv steps files handler res conv' hE
    have hrfl : execGo env (f + 1) conv steps files handler =
        execIter env
          (if detectRepetitiveActions steps then conv ++ [nudgeMessage] else conv)
          steps files handler (execGo env f) := rfl
    rw [hrfl] at hE
    simp only [execIter] at hE
    rcases hHT : HandleTurn env handler
        (turnRun env (if detectRepetitiveActions steps then conv ++ [nudgeMessage] else conv))
      with h₁ | e | p
    · rw [hHT] at hE
      dsimp only at hE
      by_cases hp : (turnRun env
          (if detectRepetitiveActions steps then conv ++ [nudgeMessage] else conv)).pendingCalls.isEmpty
      · rw [if_pos hp] at hE
        simp only [LoopOutcome.normal.injEq] at hE
        left
        rw [← hE.1]
      · rw [if_neg hp] at hE
        exact ih _ _ _ _ _ _ hE
    · rw [hHT] at hE
      simp at hE
    · rw [hHT] at hE
      simp at hE

/-- Claim C7 as stated is false: with `maxSteps = 3`, one turn of three
tool calls followed by a turn with ZERO tool calls (the loop breaks at its
second iteration of three, after the final assistant message "Done" with no
tool calls) still ends in `success = false` with message
`"Maximum steps reached"`, because the code keys the cap on the recorded
step COUNT, not on exhausting the loop. -/
theorem stepCap_counterexample :
    ExecuteWithHistory capEnv 3 [{ role := "user", content := "hi" }] =
      LoopOutcome.normal
        { success := false, message := "Maximum steps reached", generatedFiles := []
          steps :=
            [{ stepNumber := 1, action := "tool_call", toolName := "read_file", toolArgs := [] },
             { stepNumber := 2, action := "tool_call", toolName := "read_file", toolArgs := [] },
             { stepNumber := 3, action := "tool_call", toolName := "read_file", toolArgs := [] }] }
        [{ role := "user", content := "hi" },
         { role := "assistant", content := "", toolCalls :=
           [{ id := "c1", name := "read_file", arguments := "a" },
            { id := "c2", name := "read_file", arguments := "a" },
            { id := "c3", name := "read_file", arguments := "a" }] },
         { role := "tool", content := "ok", name := "read_file", toolCallID := "c1" },
         { role := "tool", content := "ok", name := "read_file", toolCallID := "c2" },
         { role := "tool", content := "ok", name := "read_file", toolCallID := "c3" },
         { role := "assistant", content := "Done", toolCalls := [] }]
        none := by
  decide

/-- Claim C7, amended: on the non-error return path, `ExecuteWithHistory`
reports `success = false` with message exactly `"Maximum steps reached"`
iff the number of RECORDED STEPS (individual tool calls, across all turns)
reached `maxSteps` — which holds whenever the loop exhausts its iterations,
but also when a turn with zero tool calls ends the invocation after enough
tool calls have accumulated. -/
theorem stepCap_amended (env : Env) (maxSteps : Nat) (conversation : List ChatMessage)
    (res : ExecResultM) (conv' : List ChatMessage)
    (h : ExecuteWithHistory env maxSteps conversation = LoopOutcome.normal res conv' none) :
    (res.success = false ∧ res.message = "Maximum steps reached") ↔
      maxSteps ≤ res.steps.length := by
  unfold ExecuteWithHistory at h
  rcases hE : execGo env maxSteps conversation [] [] initHandler with ⟨res0, conv0, oerr⟩ | p
  · rw [hE] at h
    dsimp only at h
    cases oerr with
    | some e => simp at h
    | none =>
      rw [if_pos rfl] at h
      by_cases hle : maxSteps ≤ res0.steps.length
      · rw [if_pos hle] at h
        simp only [LoopOutcome.normal.injEq] at h
        rw [← h.1]
        constructor
        · intro _
          exact hle
        · intro _
          exact ⟨rfl, rfl⟩
      · rw [if_neg hle] at h
        simp only [LoopOutcome.normal.injEq] at h
        rw [← h.1]
        constructor
        · intro hcl
          rcases execGo_shape env maxSteps conversation [] [] initHandler res0 conv0 hE with
            hs | hm
          · rw [hs] at hcl
            exact absurd hcl.1 (by decide)
          · rw [hm] at hcl
            exact absurd hcl.2 (by decide)
        · intro hcl
          exact absurd hcl hle
  · rw [hE] at h
    simp at h

/-- Witness for the amended C7 at the concrete step-cap scenario (the
result and conversation values are those computed in the counterexample
scenario above, spelled out). -/
theorem stepCap_amended_witness :
    (({ success := false, message := "Maximum steps reached", generatedFiles := [], steps :=
        [{ stepNumber := 1, action := "tool_call", toolName := "read_file", toolArgs := [] },
         { stepNumber := 2, action := "tool_call", toolName := "read_file", toolArgs := [] },
         { stepNumber := 3, action := "tool_call", toolName := "read_file", toolArgs := [] }] } : ExecResultM).success = false ∧
      ({ success := false, message := "Maximum steps reached", generatedFiles := [], steps :=
        [{ stepNumber := 1, action := "tool_call", toolName := "read_file", toolArgs := [] },
         { stepNumber := 2, action := "tool_call", toolName := "read_file", toolArgs := [] },
         { stepNumber := 3, action := "tool_call", toolName := "read_file", toolArgs := [] }] } : ExecResultM).message = "Maximum steps reached") ↔
      3 ≤ ({ success := false, message := "Maximum steps reached", generatedFiles := [], steps :=
        [{ stepNumber := 1, action := "tool_call", toolName := "read_file", toolArgs := [] },
         { stepNumber := 2, action := "tool_call", toolName := "read_file", toolArgs := [] },
         { stepNumber := 3, action := "tool_call", toolName := "read_file", toolArgs := [] }] } : ExecResultM).steps.length :=
  stepCap_amended capEnv 3 [{ role := "user", content := "hi" }]
    { success := false, message := "Maximum steps reached", generatedFiles := []
      steps :=
        [{ stepNumber := 1, action := "tool_call", toolName := "read_file", toolArgs := [] },
         { stepNumber := 2, action := "tool_call", toolName := "read_file", toolArgs := [] },
         { stepNumber := 3, action := "tool_call", toolName := "read_file", toolArgs := [] }] }
    [{ role := "user", content := "hi" },
     { role := "assistant", content := "", toolCalls :=
       [{ id := "c1", name := "read_file", arguments := "a" },
        { id := "c2", name := "read_file", arguments := "a" },
        { id := "c3", name := "read_file", arguments := "a" }] },
     { role := "tool", content := "ok", name := "read_file", toolCallID := "c1" },
     { role := "tool", content := "ok", name := "read_file", toolCallID := "c2" },
     { role := "tool", content := "ok", name := "read_file", toolCallID := "c3" },
     { role := "assistant", content := "Done", toolCalls := [] }]
    (by decide)

/-! ## Claim C8 — the repetition nudge -/

/-- Claim C8, confirmed: when among the last three recorded steps some two
are `run_shell` invocations with the same command string (equivalently,
the command list of the last three steps is not duplicate-free), the next
loop iteration runs on the conversation with the repetition-nudge system
message appended, and the iteration's outcome is exactly that of the
normal loop body on the nudged conversation — repetition alone never
terminates the loop. -/
theorem repetitionNudge (env : Env) (fuel : Nat) (conversation : List ChatMessage)
    (steps : List ExecutionStepM) (files : List GeneratedFileM) (handler : HandlerState) :
    (detectRepetitiveActions steps = true →
      execGo env (fuel + 1) conversation steps files handler =
        execIter env (conversation ++ [nudgeMessage]) steps files handler (execGo env fuel))
    ∧ (detectRepetitiveActions steps = true ↔
        3 ≤ steps.length ∧ ¬ (shellCmds (steps.drop (steps.length - 3))).Nodup) := by
  constructor
  · intro h
    have hrfl : execGo env (fuel + 1) conversation steps files handler =
        execIter env
          (if detectRepetitiveActions steps then conversation ++ [nudgeMessage]
           else conversation)
          steps files handler (execGo env fuel) := rfl
    rw [hrfl, h]
    simp
  · unfold detectRepetitiveActions
    by_cases hlen : steps.length < 3
    · rw [if_pos hlen]
      constructor
      · intro hf
        exact absurd hf (by decide)
      · intro hand
        exact absurd hand.1 (by omega)
    · rw [if_neg hlen, detectLoop_iff]
      constructor
      · rintro (⟨c, _, hge⟩ | h)
        · exact absurd hge (by simp [cmdCount])
        · exact ⟨by omega, h⟩
      · rintro ⟨_, h⟩
        exact Or.inr h

/-- Witness: three identical `run_shell "ls"` steps trigger the nudge. -/
theorem repetitionNudge_witness :
    detectRepetitiveActions
        [{ stepNumber := 1, action := "tool_call", toolName := "run_shell"
           toolArgs := [("command", GoValue.str "ls")] },
         { stepNumber := 2, action := "tool_call", toolName := "run_shell"
           toolArgs := [("command", GoValue.str "ls")] },
         { stepNumber := 3, action := "tool_call", toolName := "run_shell"
           toolArgs := [("command", GoValue.str "ls")] }] = true ∧
      execGo trivialEnv 1 []
          [{ stepNumber := 1, action := "tool_call", toolName := "run_shell"
             toolArgs := [("command", GoValue.str "ls")] },
           { stepNumber := 2, action := "tool_call", toolName := "run_shell"
             toolArgs := [("command", GoValue.str "ls")] },
           { stepNumber := 3, action := "tool_call", toolName := "run_shell"
             toolArgs := [("command", GoValue.str "ls")] }] [] initHandler =
        execIter trivialEnv ([] ++ [nudgeMessage])
          [{ stepNumber := 1, action := "tool_call", toolName := "run_shell"
             toolArgs := [("command", GoValue.str "ls")] },
           { stepNumber := 2, action := "tool_call", toolName := "run_shell"
             toolArgs := [("command", GoValue.str "ls")] },
           { stepNumber := 3, action := "tool_call", toolName := "run_shell"
             toolArgs := [("command", GoValue.str "ls")] }] [] initHandler
          (execGo trivialEnv 0) :=
  ⟨by decide,
    (repetitionNudge trivialEnv 0 []
      [{ stepNumber := 1, action := "tool_call", toolName := "run_shell"
         toolArgs := [("command", GoValue.str "ls")] },
       { stepNumber := 2, action := "tool_call", toolName := "run_shell"
         toolArgs := [("command", GoValue.str "ls")] },
       { stepNumber := 3, action := "tool_call", toolName := "run_shell"
         toolArgs := [("command", GoValue.str "ls")] }] [] initHandler).1 (by decide)⟩

/-! ## Claim C1 — response coverage -/

theorem paLookup_paInsert (pa : List (String × ToolCallRequestEventM)) (k : String)
    (v : ToolCallRequestEventM) : paLookup (paInsert pa k v) k = some v := by
  simp [paLookup, paInsert]

theorem executeToolCallM_ok (env : Env) (st : HandlerState) (e : ToolCallRequestEventM)
    (hreg : env.registry.contains e.name = true) :
    executeToolCallM env st e = HandlerOutcome.ok { st with
      invoked := st.invoked ++ [(e.name, e.args)]
      toolResponses := st.toolResponses ++ [execResponseMsg env e]
      scheduler := MarkExecuted 0 st.scheduler e.callID (some GoValue.other)
        (env.execute e.name e.args).2 } := by
  have hmem : e.name ∈ env.registry := by simpa using hreg
  simp [executeToolCallM, hreg, hmem]

theorem handleEventsM_single (env : Env) (ev : EventM) (st : HandlerState) :
    handleEventsM env [ev] st = handleEventM env st ev := by
  cases h : handleEventM env st ev <;> simp [handleEventsM, h]

theorem handleEventsM_append (env : Env) :
    ∀ (xs ys : List EventM) (st : HandlerState),
      handleEventsM env (xs ++ ys) st =
        match handleEventsM env xs st with
        | HandlerOutcome.ok st₁ => handleEventsM env ys st₁
        | HandlerOutcome.fail e => HandlerOutcome.fail e
        | HandlerOutcome.panicked p => HandlerOutcome.panicked p := by
  intro xs
  induction xs with
  | nil => intro ys st; rfl
  | cons x rest ih =>
    intro ys st
    show handleEventsM env (x :: (rest ++ ys)) st = _
    cases hx : handleEventM env st x with
    | ok st' => simp [handleEventsM, hx, ih]
    | fail e => simp [handleEventsM, hx]
    | panicked p => simp [handleEventsM, hx]

theorem countResponses_append (r₁ r₂ : List ChatMessage) (i : String) :
    countResponses (r₁ ++ r₂) i = countResponses r₁ i + countResponses r₂ i := by
  simp [countResponses, List.filter_append]

theorem countResponses_all (i : String) :
    ∀ r : List ChatMessage, (∀ m ∈ r, m.toolCallID = i) → countResponses r i = r.length := by
  intro r
  induction r with
  | nil => intro _; rfl
  | cons m rest ih =>
    intro h
    have hm : m.toolCallID = i := h m (List.mem_cons_self m rest)
    have hrest := ih (fun x hx => h x (List.mem_cons_of_mem m hx))
    simp [countResponses, hm] at hrest ⊢
    exact hrest

theorem countResponses_none (i : String) :
    ∀ r : List ChatMessage, (∀ m ∈ r, m.toolCallID ≠ i) → countResponses r i = 0 := by
  intro r
  induction r with
  | nil => intro _; rfl
  | cons m rest ih =>
    intro h
    have hm : m.toolCallID ≠ i := h m (List.mem_cons_self m rest)
    have hrest := ih (fun x hx => h x (List.mem_cons_of_mem m hx))
    simp [countResponses, hm] at hrest ⊢
    exact hrest

theorem createConfirmationDetails_ne_none (env : Env) (toolName : String) (args : ArgsMap)
    (risk : RiskLevel) : createConfirmationDetails env toolName args risk ≠ none := by
  unfold createConfirmationDetails
  split_ifs <;> simp

theorem handleGroup (env : Env) (st st₁ : HandlerState) (acc : List ToolCallRequestEventM)
    (tc : ToolCall) (hid : tc.id ≠ "")
    (hok : handleEventsM env (handleToolCallM env acc tc).1 st = HandlerOutcome.ok st₁) :
    ∃ r, st₁.toolResponses = st.toolResponses ++ r
      ∧ (∀ m ∈ r, m.toolCallID = tc.id)
      ∧ r.length = 1 := by
  have hbid : (tc.id == "") = false := by simp [hid]
  cases hp : env.parseArgs tc.arguments with
  | error perr =>
    have hcall : (handleToolCallM env acc tc).1 =
        [EventM.errorEvent perr
          ("Failed to parse tool arguments for " ++ tc.name ++ ": " ++ perr)] := by
      simp [handleToolCallM, hbid, hp]
    rw [hcall, handleEventsM_single] at hok
    simp [handleEventM] at hok
  | ok args =>
    cases hreg : env.registry.contains tc.name with
    | false =>
      have hcall : (handleToolCallM env acc tc).1 =
          [EventM.errorEvent ("tool not found: " ++ tc.name) ("Unknown tool: " ++ tc.name)] := by
        have hreg' : ¬ tc.name ∈ env.registry := by simpa using hreg
        simp [handleToolCallM, hbid, hp, hreg, hreg']
      rw [hcall, handleEventsM_single] at hok
      simp [handleEventM] at hok
    | true =>
      have hreg' : tc.name ∈ env.registry := by simpa using hreg
      by_cases hrisk : AssessToolCallRisk tc.name = RiskLevel.low
      · -- Low risk: the request executes immediately, one response.
        have hcall : (handleToolCallM env acc tc).1 =
            [EventM.toolCallRequest { callID := tc.id, name := tc.name, args := args }] := by
          simp [handleToolCallM, hbid, hp, hreg', hrisk]
        rw [hcall, handleEventsM_single] at hok
        simp only [handleEventM, hrisk, if_pos] at hok
        rw [executeToolCallM_ok env st { callID := tc.id, name := tc.name, args := args } hreg]
          at hok
        injection hok with hok
        refine ⟨[execResponseMsg env { callID := tc.id, name := tc.name, args := args }],
          ?_, ?_, ?_⟩
        · rw [← hok]
        · intro m hm
          rw [List.mem_singleton] at hm
          rw [hm]
          rfl
        · rfl
      · cases hdet : createConfirmationDetails env tc.name args (AssessToolCallRisk tc.name) with
        | none =>
          -- Dead: the interface result is non-nil on every branch.
          exact absurd hdet (createConfirmationDetails_ne_none env tc.name args _)
        | some iface =>
          -- Risky: the request parks the call; the confirmation either
          -- panics (typed-nil details, excluded by hok), executes it,
          -- or records a rejection.
          have hcall : (handleToolCallM env acc tc).1 =
              [EventM.toolCallRequest { callID := tc.id, name := tc.name, args := args },
               EventM.toolCallConfirmation { callID := tc.id, name := tc.name, args := args }
                 iface] := by
            simp [handleToolCallM, hbid, hp, hreg', hrisk, hdet]
          rw [hcall] at hok
          have hreq : handleEventM env st
              (EventM.toolCallRequest { callID := tc.id, name := tc.name, args := args }) =
              HandlerOutcome.ok { st with pendingApprovals :=
                (paInsert st.pendingApprovals tc.id
                  { callID := tc.id, name := tc.name, args := args }) } := by
            simp [handleEventM, hrisk]
          rw [show ([EventM.toolCallRequest { callID := tc.id, name := tc.name, args := args },
              EventM.toolCallConfirmation { callID := tc.id, name := tc.name, args := args }
                iface]
              : List EventM) =
            [EventM.toolCallRequest { callID := tc.id, name := tc.name, args := args }] ++
            [EventM.toolCallConfirmation { callID := tc.id, name := tc.name, args := args }
              iface]
            from rfl, handleEventsM_append] at hok
          rw [handleEventsM_single, hreq] at hok
          dsimp only at hok
          rw [handleEventsM_single] at hok
          set st' : HandlerState := { st with pendingApprovals :=
            (paInsert st.pendingApprovals tc.id
              { callID := tc.id, name := tc.name, args := args }) } with hst'
          cases hptr : iface.ptr with
          | none =>
            simp [handleEventM, handleToolCallConfirmationM, hptr] at hok
          | some d =>
            cases happ : env.requestApproval (confirmationApprovalRequest env
                { callID := tc.id, name := tc.name, args := args } d) with
            | error aerr =>
              simp [handleEventM, handleToolCallConfirmationM, hptr, happ] at hok
            | ok approval =>
              by_cases hlen : 0 < approval.approvedIDs.length
              · have hpa : paLookup st'.pendingApprovals tc.id =
                    some { callID := tc.id, name := tc.name, args := args } :=
                  paLookup_paInsert st.pendingApprovals tc.id _
                simp only [handleEventM, handleToolCallConfirmationM, hptr, happ,
                  if_pos hlen, hpa] at hok
                rw [executeToolCallM_ok env
                  { st' with scheduler := (ApproveCalls 0
                      (ScheduleToolCalls 0 st'.scheduler
                        [confirmationToolCall env { callID := tc.id, name := tc.name, args := args }])
                      approval.approvedIDs) }
                  { callID := tc.id, name := tc.name, args := args } hreg] at hok
                injection hok with hok
                refine ⟨[execResponseMsg env { callID := tc.id, name := tc.name, args := args }],
                  ?_, ?_, ?_⟩
                · rw [← hok]
                · intro m hm
                  rw [List.mem_singleton] at hm
                  rw [hm]
                  rfl
                · rfl
              · simp only [handleEventM, handleToolCallConfirmationM, hptr, happ,
                  if_neg hlen] at hok
                injection hok with hok
                refine ⟨[{ role := "tool", name := tc.name
                           content := "Tool call rejected by user", toolCallID := tc.id }],
                  ?_, ?_, ?_⟩
                · rw [← hok]
                · intro m hm
                  rw [List.mem_singleton] at hm
                  rw [hm]
                · rfl

theorem handleCalls (env : Env) :
    ∀ (calls : List ToolCall) (acc : List ToolCallRequestEventM) (st st₁ : HandlerState),
      (∀ t ∈ calls, t.id ≠ "") →
      (calls.map ToolCall.id).Nodup →
      handleEventsM env (turnCallsEvents env acc calls).1 st = HandlerOutcome.ok st₁ →
      ∃ r, st₁.toolResponses = st.toolResponses ++ r
        ∧ (∀ m ∈ r, m.toolCallID ∈ calls.map ToolCall.id)
        ∧ ∀ t ∈ calls, countResponses r t.id = 1 := by
  intro calls
  induction calls with
  | nil =>
    intro acc st st₁ _ _ hok
    have hst : st = st₁ := by
      simpa [turnCallsEvents, handleEventsM] using hok
    refine ⟨[], by simp [hst], by simp, by simp⟩
  | cons tc rest ih =>
    intro acc st st₁ hid hnd hok
    have hsplit : (turnCallsEvents env acc (tc :: rest)).1 =
        (handleToolCallM env acc tc).1 ++
          (turnCallsEvents env (handleToolCallM env acc tc).2 rest).1 := rfl
    rw [hsplit, handleEventsM_append] at hok
    cases hmid : handleEventsM env (handleToolCallM env acc tc).1 st with
    | fail e =>
      rw [hmid] at hok
      exact absurd hok (by simp)
    | panicked p =>
      rw [hmid] at hok
      exact absurd hok (by simp)
    | ok stm =>
      rw [hmid] at hok
      dsimp only at hok
      have hnd' : (rest.map ToolCall.id).Nodup := (List.nodup_cons.mp hnd).2
      have hhead : tc.id ∉ rest.map ToolCall.id := (List.nodup_cons.mp hnd).1
      obtain ⟨r₁, hr₁, hids₁, hlen₁⟩ :=
        handleGroup env st stm acc tc (hid tc (List.mem_cons_self tc rest)) hmid
      obtain ⟨r₂, hr₂, hids₂, hcnt₂⟩ :=
        ih (handleToolCallM env acc tc).2 stm st₁
          (fun t ht => hid t (List.mem_cons_of_mem tc ht)) hnd' hok
      refine ⟨r₁ ++ r₂, ?_, ?_, ?_⟩
      · rw [hr₂, hr₁, List.append_assoc]
      · intro m hm
        rcases List.mem_append.mp hm with h1 | h2
        · rw [List.map_cons, hids₁ m h1]
          exact List.mem_cons_self tc.id (rest.map ToolCall.id)
        · rw [List.map_cons]
          exact List.mem_cons_of_mem tc.id (hids₂ m h2)
      · intro t ht
        rcases List.mem_cons.mp ht with heq | htr
        · subst heq
          rw [countResponses_append]
          have h1 : countResponses r₁ t.id = r₁.length := countResponses_all t.id r₁ hids₁
          have h2 : countResponses r₂ t.id = 0 := by
            apply countResponses_none
            intro m hm hmid2
            exact hhead (hmid2 ▸ hids₂ m hm)
          rw [h1, h2, hlen₁]
        · rw [countResponses_append]
          have hne : tc.id ≠ t.id := by
            intro hcontra
            exact hhead (hcontra ▸ List.mem_map_of_mem ToolCall.id htr)
          have h1 : countResponses r₁ t.id = 0 := by
            apply countResponses_none
            intro m hm
            rw [hids₁ m hm]
            exact hne
          rw [h1, hcnt₂ t htr]

/-- Coverage on every normally completing turn: when the handler finishes
without a returned error and without panicking (exactly the case in which
the loop goes on to the next LLM call), every tool call of the assistant
message — with provider-assigned, distinct ids — receives EXACTLY ONE
tool-role response with its `tool_call_id` (a real result or the
`"Tool call rejected by user"` marker). -/
theorem handleTurnCoverage (env : Env) (conv : List ChatMessage) (st st' : HandlerState)
    (reply : LLMReply)
    (hllm : env.llm (filterConversationForLLM conv) = Except.ok reply)
    (hid : ∀ t ∈ reply.toolCalls, t.id ≠ "")
    (hnodup : (reply.toolCalls.map ToolCall.id).Nodup)
    (hok : HandleTurn env st (turnRun env conv) = HandlerOutcome.ok st') :
    ∀ t ∈ reply.toolCalls, countResponses st'.toolResponses t.id = 1 := by
  have htr : (turnRun env conv).events =
      (if reply.content == "" then [] else [EventM.content reply.content]) ++
        (turnCallsEvents env [] reply.toolCalls).1 := by
    simp [turnRun, hllm]
  unfold HandleTurn at hok
  rw [htr, handleEventsM_append] at hok
  have hcontent : handleEventsM env
      (if reply.content == "" then [] else [EventM.content reply.content])
      { st with toolResponses := [] } = HandlerOutcome.ok { st with toolResponses := [] } := by
    cases hc : reply.content == "" <;> simp [hc, handleEventsM, handleEventM]
  rw [hcontent] at hok
  dsimp only at hok
  obtain ⟨r, hr, _, hcnt⟩ :=
    handleCalls env reply.toolCalls [] { st with toolResponses := [] } st' hid hnodup hok
  intro t ht
  have hresp : st'.toolResponses = r := by simpa using hr
  rw [hresp]
  exact hcnt t ht

/-- The coverage fact at a concrete turn: a Low-risk call "a" and an
approved risky call "b" each receive exactly one response. -/
theorem handleTurnCoverage_example :
    countResponses
        (okState (HandleTurn covEnv initHandler
          (turnRun covEnv [{ role := "user", content := "hi" }]))).toolResponses "a" = 1 ∧
      countResponses
        (okState (HandleTurn covEnv initHandler
          (turnRun covEnv [{ role := "user", content := "hi" }]))).toolResponses "b" = 1 :=
  ⟨handleTurnCoverage covEnv [{ role := "user", content := "hi" }] initHandler
      (okState (HandleTurn covEnv initHandler
        (turnRun covEnv [{ role := "user", content := "hi" }])))
      { content := "", toolCalls :=
        [{ id := "a", name := "read_file", arguments := "x" },
         { id := "b", name := "write_file", arguments := "y" }] }
      rfl (by decide) (by decide) rfl
      { id := "a", name := "read_file", arguments := "x" } (by decide),
    handleTurnCoverage covEnv [{ role := "user", content := "hi" }] initHandler
      (okState (HandleTurn covEnv initHandler
        (turnRun covEnv [{ role := "user", content := "hi" }])))
      { content := "", toolCalls :=
        [{ id := "a", name := "read_file", arguments := "x" },
         { id := "b", name := "write_file", arguments := "y" }] }
      rfl (by decide) (by decide) rfl
      { id := "b", name := "write_file", arguments := "y" } (by decide)⟩

/-- Claim C1: the response-coverage obligation holds on every normally
completing turn (see the coverage theorem above), but the program has a
CODE BUG on the `edit`-of-an-unreadable-file path.  There
`createFileConfirmationDetails` returns a nil `*ToolFileConfirmationDetails`,
`createConfirmationDetails` boxes it into its interface result (Go's typed
nil), so the `details != nil` guard passes and the confirmation event is
emitted carrying nil details; the handler then dereferences the nil pointer
in `event.Details.GetRisk()` and the invocation PANICS — the call "e1" is
never answered, and no next LLM call is ever reached. -/
theorem toolResponseCoverage_codeBug :
    createConfirmationDetails editEnv "edit" [("file_path", GoValue.str "/nope")]
        (AssessToolCallRisk "edit") = some { ptr := none } ∧
      (turnRun editEnv [{ role := "user", content := "hi" }]).events =
        [EventM.toolCallRequest
           { callID := "e1", name := "edit", args := [("file_path", GoValue.str "/nope")] },
         EventM.toolCallConfirmation
           { callID := "e1", name := "edit", args := [("file_path", GoValue.str "/nope")] }
           { ptr := none }] ∧
      HandleTurn editEnv initHandler
          (turnRun editEnv [{ role := "user", content := "hi" }]) =
        HandlerOutcome.panicked nilDerefPanic ∧
      ExecuteWithHistory editEnv 2 [{ role := "user", content := "hi" }] =
        LoopOutcome.panicked nilDerefPanic :=
  ⟨rfl, rfl, rfl, rfl⟩

end Agenticode
